import Mathlib

/-! ThermoStat430: a shallow embedding of `termostat.c` and `temp.h`.

The controller is written for the MSP430, where `int` is 16 bits wide.  Every
global of `termostat.c` becomes a field of `State`; unsigned machine integers are
natural numbers reduced modulo `2^w` at each store, signed ones are integers
wrapped into their two's complement range.  Interrupt handlers and main-loop
routines become functions `State → State`; what they read from the hardware (the
input port, the conversion register, the calibration word) is an argument.
-/

namespace ThermoStat

/-! ## Machine integers -/

/-- Value of a 16-bit pattern read as `int16_t`. -/
def toInt16 (n : Nat) : Int :=
  if n % 65536 < 32768 then ((n % 65536 : Nat) : Int) else ((n % 65536 : Nat) : Int) - 65536

/-- Conversion of a wider signed value to a 16-bit `int` (two's complement truncation). -/
def wrapInt16 (z : Int) : Int := (z + 32768) % 65536 - 32768

/-- Conversion of a wider signed value to `int8_t` (two's complement truncation). -/
def wrapInt8 (z : Int) : Int := (z + 128) % 256 - 128

/-- Difference of two `uint16_t` values as computed in 16-bit unsigned arithmetic. -/
def sub16 (a b : Nat) : Nat := (a + (65536 - b % 65536)) % 65536

/-! ## Constants of `termostat.c` (bit names as in `msp430.h`) -/

def BIT0 : Nat := 0x01
def BIT1 : Nat := 0x02
def BIT2 : Nat := 0x04
def BIT3 : Nat := 0x08
def BIT4 : Nat := 0x10
def BIT5 : Nat := 0x20
def BIT6 : Nat := 0x40

def BTN : Nat := BIT3
def LED1 : Nat := BIT0
def LED2 : Nat := BIT6
def HEATER : Nat := LED1

def P1T : Nat := BIT4 ||| BIT5
def P2T : Nat := BIT0 ||| BIT1 ||| BIT2

/-- Control bits of the converter set by `t_sample` (`ENC` and `ADC10SC` of `msp430.h`). -/
def ENC : Nat := 0x002
def ADC10SC : Nat := 0x001

def T_LEVELS : Nat := 5
def t_levels : List Int := [2, 4, 6, 8, 12]
def LONG_PRESS : Int := 200
def BLINK_SHIFT : Nat := 4
def T_SAMPLES : Nat := 64
def CFG_SEG_SZ : Nat := 64
def UI_TIMEOUT : Int := 2000
def TSCALE : Int := 278

/-! ## Data model -/

/-- Button events. -/
inductive btn_evt_t where
  | btn_none
  | btn_long_pressed
  | btn_released
  deriving DecidableEq, Repr

/-- UI state. -/
inductive ui_state_t where
  | ui_idle
  | ui_monitor
  | ui_setting
  deriving DecidableEq, Repr

open btn_evt_t ui_state_t

/-- The globals of `termostat.c`, the two output ports, the converter control
register and the configuration segment of the flash. -/
structure State where
  btn_hist : Nat
  btn_evt : btn_evt_t
  btn_epoch : Nat
  btn_pressed_ts : Nat
  wdt_clock : Nat
  t_level_set : Nat
  t_level_current : Int
  t_sum : Nat
  t_cnt : Nat
  t_measured : Int
  t_epoch : Nat
  ui_state : ui_state_t
  ui_state_ts : Nat
  P1OUT : Nat
  P2OUT : Nat
  ADC10CTL0 : Nat
  cfg_seq : List Nat
  deriving DecidableEq, Repr

/-! ## Clock -/

/-- Source `elapsed`: `(int16_t)(wdt_clock - since)`. -/
def elapsed (s : State) (since : Nat) : Int :=
  toInt16 (sub16 s.wdt_clock since)

/-! ## Button -/

/-- Source `btn_process`; `p1in` is the value of the input port `P1IN` at this tick. -/
def btn_process (p1in : Nat) (s : State) : State :=
  let pressed : Nat := if p1in &&& BTN = 0 then 1 else 0
  let was_pressed := s.btn_hist
  let hist := ((s.btn_hist <<< 1) % 256) ||| pressed
  let s1 := { s with btn_hist := hist }
  if hist ≠ 0 then
    if was_pressed = 0 then
      { s1 with btn_pressed_ts := s1.wdt_clock, btn_evt := btn_none }
    else if s1.btn_evt = btn_none ∧ elapsed s1 s1.btn_pressed_ts > LONG_PRESS then
      { s1 with btn_evt := btn_long_pressed, btn_epoch := (s1.btn_epoch + 1) % 256 }
    else s1
  else
    if was_pressed ≠ 0 then
      if s1.btn_evt = btn_none then
        { s1 with btn_evt := btn_released, btn_epoch := (s1.btn_epoch + 1) % 256 }
      else s1
    else s1

/-! ## Indicator lamps -/

/-- Source `led_process`.  The shift `1 << (t_level + 1)` is taken exactly and the
result truncated to the 8 bits of `mask`. -/
def led_process (s : State) : State :=
  let s1 := { s with P1OUT := (s.P1OUT ||| P1T) % 256, P2OUT := (s.P2OUT ||| P2T) % 256 }
  if s1.ui_state = ui_idle then s1
  else
    let s2 := { s1 with P1OUT := (s1.P1OUT ||| HEATER) % 256 }
    if s2.ui_state = ui_setting ∧ s2.wdt_clock &&& (1 <<< BLINK_SHIFT) = 0 then s2
    else if s2.ui_state = ui_monitor ∧ s2.t_level_current < 0 then s2
    else
      let t_level : Nat :=
        if s2.ui_state = ui_monitor then (s2.t_level_current % 256).toNat else s2.t_level_set
      let mask : Nat := ((1 <<< (t_level + 1)) - 1) % 256
      { s2 with
        P1OUT := s2.P1OUT &&& (255 ^^^ ((mask &&& 3) <<< 4))
        P2OUT := s2.P2OUT &&& (255 ^^^ (mask >>> 2)) }

/-! ## Temperature -/

/-- Source `t_sample`: start a conversion. -/
def t_sample (s : State) : State :=
  { s with ADC10CTL0 := (s.ADC10CTL0 ||| (ENC + ADC10SC)) % 65536 }

/-- Source `adc2Temp` of `temp.h`.  `cal30` is the calibration word `CAL_ADC_15T30`
read from the information memory; the quotient is computed in `long long` and the
result is returned as a 16-bit `int`. -/
def adc2Temp (cal30 : Nat) (v : Int) : Int :=
  let c30 : Int := toInt16 cal30
  wrapInt16 (Int.tdiv ((TSCALE + 30) * v) c30 - TSCALE)

/-- Source `ADC10_ISR`; `adc10mem` is the conversion result register `ADC10MEM`. -/
def ADC10_ISR (cal30 : Nat) (adc10mem : Nat) (s : State) : State :=
  let sum := (s.t_sum + adc10mem) % 65536
  let cnt := (s.t_cnt + 1) % 256
  if cnt = T_SAMPLES then
    { s with
      t_measured := wrapInt8 (adc2Temp cal30 ((sum / T_SAMPLES : Nat) : Int))
      t_sum := 0
      t_cnt := 0
      t_epoch := (s.t_epoch + 1) % 256 }
  else
    { s with t_sum := sum, t_cnt := cnt }

/-- The `for` loop of `t_updated`: `i` is the loop counter and `r = T_LEVELS - i`
the number of table entries still to be compared; the result is the value of `i`
when the loop is left. -/
def t_scan (t : Int) : Nat → Nat → Nat
  | 0, i => i
  | r + 1, i => if t < t_levels.getD i 0 then i else t_scan t r (i + 1)

/-- Source `t_updated`. -/
def t_updated (s : State) : State :=
  let i := t_scan s.t_measured T_LEVELS 0
  let s1 := { s with t_level_current := wrapInt8 ((i : Int) - 1) }
  if s1.ui_state ≠ ui_idle then s1
  else if s1.t_level_current < (s1.t_level_set : Int) then
    { s1 with P1OUT := (s1.P1OUT ||| HEATER) % 256 }
  else
    { s1 with P1OUT := s1.P1OUT &&& (255 ^^^ HEATER) }

/-! ## Configuration -/

/-- Modelled from the spec: `flash_erase` of `flash.h` is not among the sources; the
store is erase-then-write, and erasing the segment sets every bit of it. -/
def flash_erase (_seg : List Nat) : List Nat := List.replicate CFG_SEG_SZ 0xFF

/-- Modelled from the spec: `flash_write` of `flash.h` is not among the sources;
writing one byte to an erased location stores that byte. -/
def flash_write (seg : List Nat) (off : Nat) (byte : Nat) : List Nat := seg.set off (byte % 256)

/-- Source `cfg_level`. -/
def cfg_level (s : State) : Nat := s.cfg_seq.getD 0 0

/-- Source `cfg_valid`. -/
def cfg_valid (s : State) : Bool := decide (cfg_level s < T_LEVELS)

/-- Source `cfg_erase`. -/
def cfg_erase (s : State) : State := { s with cfg_seq := flash_erase s.cfg_seq }

/-- Source `cfg_save`. -/
def cfg_save (s : State) : State :=
  let s1 := cfg_erase s
  { s1 with cfg_seq := flash_write s1.cfg_seq 0 s1.t_level_set }

/-! ## User interface -/

/-- Source `ui_set_state`. -/
def ui_set_state (st : ui_state_t) (s : State) : State :=
  { s with ui_state := st, ui_state_ts := s.wdt_clock }

/-- Source `ui_idle_handler`. -/
def ui_idle_handler (s : State) : State :=
  match s.btn_evt with
  | btn_released => ui_set_state ui_monitor s
  | btn_long_pressed => ui_set_state ui_setting s
  | btn_none => s

/-- Source `ui_monitor_handler`. -/
def ui_monitor_handler (s : State) : State :=
  match s.btn_evt with
  | btn_released => ui_set_state ui_idle s
  | btn_long_pressed => ui_set_state ui_setting s
  | btn_none => s

/-- Source `ui_setting_handler`. -/
def ui_setting_handler (s : State) : State :=
  match s.btn_evt with
  | btn_released =>
    ui_set_state ui_setting { s with t_level_set := ((s.t_level_set + 1) % T_LEVELS) % 256 }
  | btn_long_pressed => ui_set_state ui_idle (cfg_save s)
  | btn_none => s

/-- Source `handle_btn_evt`. -/
def handle_btn_evt (s : State) : State :=
  match s.ui_state with
  | ui_idle => ui_idle_handler s
  | ui_monitor => ui_monitor_handler s
  | ui_setting => ui_setting_handler s

/-- Source `ui_chk_timeout`. -/
def ui_chk_timeout (s : State) : State :=
  if s.ui_state ≠ ui_idle ∧ elapsed s s.ui_state_ts > UI_TIMEOUT then ui_set_state ui_idle s
  else s

/-! ## Periodic tick -/

/-- Source `watchdog_timer`, the tick interrupt; `p1in` is the input port at this tick. -/
def watchdog_timer (p1in : Nat) (s : State) : State :=
  let s1 := { s with wdt_clock := (s.wdt_clock + 1) % 65536 }
  let s2 := btn_process p1in s1
  let s3 := led_process s2
  let s4 := t_sample s3
  ui_chk_timeout s4

/-! ## Start-up -/

def ADC_TAG : Nat := 0x10

/-- Bits written to the converter control register by `main` (values of `msp430.h`). -/
def SREF_1 : Nat := 0x2000
def ADC10SHT_3 : Nat := 0x1800
def REFON : Nat := 0x020
def ADC10ON : Nat := 0x010
def ADC10IE : Nat := 0x008

/-- The globals as the C start-up code leaves them: zero, except the two that have an
initialiser; `flash` is the content of the configuration segment. -/
def reset_state (flash : List Nat) : State where
  btn_hist := 0
  btn_evt := btn_none
  btn_epoch := 0
  btn_pressed_ts := 0
  wdt_clock := 0
  t_level_set := 2
  t_level_current := 0
  t_sum := 0
  t_cnt := 0
  t_measured := 0
  t_epoch := 0
  ui_state := ui_idle
  ui_state_ts := 0
  P1OUT := 0
  P2OUT := 0
  ADC10CTL0 := 0
  cfg_seq := flash

/-- Source `adcTempCalibValid` of `temp.h`; `cal_tag` is the byte `CAL_ADC_TAG`. -/
def adcTempCalibValid (cal_tag : Nat) : Bool := decide (cal_tag = ADC_TAG)

/-- Source `main` from its first statement to the entry of the main loop, for a valid
calibration tag. -/
def boot (flash : List Nat) : State :=
  let s0 := reset_state flash
  let s1 := { s0 with P1OUT := BTN ||| P1T, P2OUT := P2T }
  let s2 := if cfg_valid s1 then { s1 with t_level_set := cfg_level s1 } else s1
  { s2 with ADC10CTL0 := SREF_1 + ADC10SHT_3 + REFON + ADC10ON + ADC10IE }

/-- Source `main` up to the main loop: with an invalid calibration tag `stop` is
entered and never left, so the main loop is not reached. -/
def main_init (cal_tag : Nat) (flash : List Nat) : Option State :=
  if adcTempCalibValid cal_tag then some (boot flash) else none

/-- The locals of `main` together with the globals. -/
structure MainState where
  last_btn_epoch : Nat
  last_t_epoch : Nat
  g : State
  deriving DecidableEq, Repr

/-- One pass through the body of the main loop of `main`, after a wake-up. -/
def main_loop (m : MainState) : MainState :=
  let m1 :=
    if m.last_btn_epoch ≠ m.g.btn_epoch then
      { m with last_btn_epoch := m.g.btn_epoch, g := handle_btn_evt m.g }
    else m
  if m1.last_t_epoch ≠ m1.g.t_epoch then
    { m1 with last_t_epoch := m1.g.t_epoch, g := t_updated m1.g }
  else m1

/-! ## Runs of the tick interrupt -/

/-- State after the tick interrupt has run once for each port sample of the list. -/
def run : State → List Nat → State
  | s, [] => s
  | s, x :: xs => run (watchdog_timer x s) xs

/-- The states reached after each tick of a run, in order. -/
def trace : State → List Nat → List State
  | _, [] => []
  | s, x :: xs => watchdog_timer x s :: trace (watchdog_timer x s) xs

/-- Number of states of a list whose button epoch differs from the one before
(`e` being the epoch before the first). -/
def bumps : Nat → List State → Nat
  | _, [] => 0
  | e, t :: ts => (if t.btn_epoch ≠ e then 1 else 0) + bumps t.btn_epoch ts

/-- Number of ticks of a run that change the button epoch. -/
def epochBumps (s : State) (xs : List Nat) : Nat := bumps s.btn_epoch (trace s xs)

/-- The two history statements of `btn_process`: shift, then or-in the new sample. -/
def histNext (h p1in : Nat) : Nat := ((h <<< 1) % 256) ||| (if p1in &&& BTN = 0 then 1 else 0)

/-- History register after a list of samples. -/
def histAfter : Nat → List Nat → Nat
  | h, [] => h
  | h, x :: xs => histAfter (histNext h x) xs

/-- The button stays logically pressed (history non-zero) after every sample of the list. -/
def StaysDown : Nat → List Nat → Prop
  | _, [] => True
  | h, x :: xs => histNext h x ≠ 0 ∧ StaysDown (histNext h x) xs

/-- A press is in progress and not yet classified: the button is logically pressed
since clock value `ts`, `k` ticks have passed since then, no event has been set and
the epoch is still `e`. -/
def Pending (ts e k : Nat) (s : State) : Prop :=
  s.btn_hist ≠ 0 ∧ s.btn_pressed_ts = ts ∧ s.wdt_clock = (ts + k) % 65536 ∧
    s.btn_evt = btn_none ∧ s.btn_epoch = e

/-- A press is in progress and has been classified as a long press, with epoch `e`. -/
def Fired (e : Nat) (s : State) : Prop :=
  s.btn_hist ≠ 0 ∧ s.btn_evt = btn_long_pressed ∧ s.btn_epoch = e

/-! ## Reference definitions taken from the specification -/

/-- The transition table of the specification (section 4.4), with no event leaving the
mode as it is.  Transcribed from the specification, for comparison with `handle_btn_evt`. -/
def specTransition : ui_state_t → btn_evt_t → ui_state_t
  | ui_idle, btn_released => ui_monitor
  | ui_idle, btn_long_pressed => ui_setting
  | ui_monitor, btn_released => ui_idle
  | ui_monitor, btn_long_pressed => ui_setting
  | ui_setting, btn_released => ui_setting
  | ui_setting, btn_long_pressed => ui_idle
  | m, btn_none => m

/-- Level index of a temperature as the specification tabulates it for the table
`{2,4,6,8,12}`.  Transcribed from the specification, for comparison with `t_updated`. -/
def specLevel (t : Int) : Int :=
  if t < 2 then -1
  else if t < 4 then 0
  else if t < 6 then 1
  else if t < 8 then 2
  else if t < 12 then 3
  else 4

/-- The conversion formula of the specification (section 4.3): with `scale = 278` and
`average = accumulator / 64`, the value `(scale + 30) * average / calibRef30 - scale`,
both divisions truncating.  Transcribed from the specification, for comparison with
`ADC10_ISR`. -/
def specCelsius (calibRef30 : Int) (accumulator : Nat) : Int :=
  Int.tdiv ((278 + 30) * ((accumulator / 64 : Nat) : Int)) calibRef30 - 278

/-! ## Runs of the conversion interrupt and of the whole system -/

/-- State after the conversion interrupt has run once for each raw result of the list. -/
def adcRun (cal30 : Nat) : State → List Nat → State
  | s, [] => s
  | s, x :: xs => adcRun cal30 (ADC10_ISR cal30 x s) xs

/-- The operations that change the state of the running system: the tick interrupt, the
conversion interrupt, and the two routines called from the main loop. -/
inductive Op where
  | tick (p1in : Nat)
  | conv (adc10mem : Nat)
  | temp
  | button
  deriving DecidableEq, Repr

/-- Effect of one operation; `cal30` is the calibration word. -/
def Op.apply (cal30 : Nat) : Op → State → State
  | Op.tick p1in, s => watchdog_timer p1in s
  | Op.conv adc10mem, s => ADC10_ISR cal30 adc10mem s
  | Op.temp, s => t_updated s
  | Op.button, s => handle_btn_evt s

/-- State after a sequence of operations. -/
def exec (cal30 : Nat) : State → List Op → State
  | s, [] => s
  | s, o :: os => exec cal30 (Op.apply cal30 o s) os

/-- Number of ticks in a sequence of operations. -/
def ticks : List Op → Nat
  | [] => 0
  | Op.tick _ :: os => ticks os + 1
  | _ :: os => ticks os

/-- A non-idle mode `st` was entered at clock value `c` and `k` ticks have passed since,
with no mode change in between. -/
def Waiting (st : ui_state_t) (c k : Nat) (s : State) : Prop :=
  s.ui_state = st ∧ s.ui_state_ts = c ∧ s.wdt_clock % 65536 = (c + k) % 65536

/-- The value `pressed` that `btn_process` computes from a port sample. -/
def sampleBit (p1in : Nat) : Bool := decide (p1in &&& BTN = 0)

/-- The sample taken `i` ticks before the most recent one of the list (`false` when the
list is not that long). -/
def recentSample (xs : List Nat) (i : Nat) : Bool := (xs.reverse.map sampleBit).getD i false

/-- The level-bar segments that are lit (driven low) in a state, lowest first: bits 4
and 5 of port 1, then bits 0, 1 and 2 of port 2. -/
def segments (s : State) : List Bool :=
  [!s.P1OUT.testBit 4, !s.P1OUT.testBit 5, !s.P2OUT.testBit 0, !s.P2OUT.testBit 1,
    !s.P2OUT.testBit 2]

/-- A bar of the specification: of the 5 segments, the first `n` lit and the others dark.
Transcribed from the specification, for comparison with `led_process`. -/
def specBar (n : Nat) : List Bool := (List.range 5).map (fun j => decide (j < n))

/-- Event dispatch as the main loop performs it once `btn_process` has classified the
event `e`: `handle_btn_evt` run with `btn_evt = e`. -/
def dispatch (e : btn_evt_t) (s : State) : State := handle_btn_evt { s with btn_evt := e }

/-- The samples of the batch in progress after the conversion results `xs`. -/
def currentBatch (xs : List Nat) : List Nat := xs.drop (T_SAMPLES * (xs.length / T_SAMPLES))

/-! # Theorems -/

/-! ### Bit-level facts and frame properties -/

theorem or_one_odd (a : Nat) : (a ||| 1) % 2 = 1 := by
  have h := Nat.testBit_zero (a ||| 1)
  rw [Nat.testBit_or] at h
  have h1 : Nat.testBit 1 0 = true := by decide
  rw [h1, Bool.or_true] at h
  exact of_decide_eq_true h.symm

theorem or_one_lt (a : Nat) (h : a < 256) : (a ||| 1) < 256 :=
  Nat.or_lt_two_pow (n := 8) h (by norm_num)

theorem histNext_pressed (h p : Nat) (hp : p &&& BTN = 0) :
    histNext h p % 2 = 1 ∧ histNext h p < 256 := by
  unfold histNext
  simp only [hp, if_true]
  exact ⟨or_one_odd _, or_one_lt _ (Nat.mod_lt _ (by norm_num))⟩

theorem histNext_released (h p : Nat) (hp : p &&& BTN ≠ 0) :
    histNext h p = (h * 2) % 256 := by
  unfold histNext
  simp [hp, Nat.shiftLeft_eq]

theorem histNext_lt (h p : Nat) : histNext h p < 256 := by
  by_cases hp : p &&& BTN = 0
  · exact (histNext_pressed h p hp).2
  · rw [histNext_released h p hp]; exact Nat.mod_lt _ (by norm_num)

theorem led_process_frame (s : State) :
    (led_process s).btn_hist = s.btn_hist ∧ (led_process s).btn_evt = s.btn_evt ∧
    (led_process s).btn_epoch = s.btn_epoch ∧ (led_process s).btn_pressed_ts = s.btn_pressed_ts ∧
    (led_process s).wdt_clock = s.wdt_clock ∧ (led_process s).ui_state = s.ui_state ∧
    (led_process s).ui_state_ts = s.ui_state_ts ∧ (led_process s).t_level_set = s.t_level_set ∧
    (led_process s).cfg_seq = s.cfg_seq := by
  unfold led_process
  simp only []
  split_ifs <;> simp

theorem btn_process_frame (p : Nat) (s : State) :
    (btn_process p s).wdt_clock = s.wdt_clock ∧ (btn_process p s).ui_state = s.ui_state ∧
    (btn_process p s).ui_state_ts = s.ui_state_ts ∧ (btn_process p s).t_level_set = s.t_level_set ∧
    (btn_process p s).cfg_seq = s.cfg_seq := by
  unfold btn_process
  simp only []
  split_ifs <;> simp

theorem ui_chk_timeout_frame (s : State) :
    (ui_chk_timeout s).btn_hist = s.btn_hist ∧ (ui_chk_timeout s).btn_evt = s.btn_evt ∧
    (ui_chk_timeout s).btn_epoch = s.btn_epoch ∧ (ui_chk_timeout s).btn_pressed_ts = s.btn_pressed_ts ∧
    (ui_chk_timeout s).wdt_clock = s.wdt_clock ∧ (ui_chk_timeout s).t_level_set = s.t_level_set ∧
    (ui_chk_timeout s).cfg_seq = s.cfg_seq := by
  unfold ui_chk_timeout ui_set_state
  split_ifs <;> simp

/-- Button fields after one tick, as a function of the button fields before it. -/
theorem tick_btn (p : Nat) (s : State) :
    (watchdog_timer p s).wdt_clock = (s.wdt_clock + 1) % 65536 ∧
    (watchdog_timer p s).btn_hist = histNext s.btn_hist p ∧
    (watchdog_timer p s).btn_pressed_ts =
      (if histNext s.btn_hist p ≠ 0 then
        (if s.btn_hist = 0 then (s.wdt_clock + 1) % 65536 else s.btn_pressed_ts)
       else s.btn_pressed_ts) ∧
    (watchdog_timer p s).btn_evt =
      (if histNext s.btn_hist p ≠ 0 then
        (if s.btn_hist = 0 then btn_none
         else if s.btn_evt = btn_none ∧
            toInt16 (sub16 ((s.wdt_clock + 1) % 65536) s.btn_pressed_ts) > 200 then btn_long_pressed
         else s.btn_evt)
       else if s.btn_hist ≠ 0 ∧ s.btn_evt = btn_none then btn_released else s.btn_evt) ∧
    (watchdog_timer p s).btn_epoch =
      (if histNext s.btn_hist p ≠ 0 then
        (if s.btn_hist = 0 then s.btn_epoch
         else if s.btn_evt = btn_none ∧
            toInt16 (sub16 ((s.wdt_clock + 1) % 65536) s.btn_pressed_ts) > 200
         then (s.btn_epoch + 1) % 256
         else s.btn_epoch)
       else if s.btn_hist ≠ 0 ∧ s.btn_evt = btn_none then (s.btn_epoch + 1) % 256
       else s.btn_epoch) := by
  unfold watchdog_timer
  simp only [(ui_chk_timeout_frame _).1, (ui_chk_timeout_frame _).2.1, (ui_chk_timeout_frame _).2.2.1,
    (ui_chk_timeout_frame _).2.2.2.1, (ui_chk_timeout_frame _).2.2.2.2.1, t_sample,
    (led_process_frame _).1, (led_process_frame _).2.1, (led_process_frame _).2.2.1,
    (led_process_frame _).2.2.2.1, (led_process_frame _).2.2.2.2.1, (btn_process_frame _ _).1]
  unfold btn_process elapsed LONG_PRESS
  simp only [← histNext.eq_1]
  refine ⟨trivial, ?_, ?_, ?_, ?_⟩ <;> split_ifs <;> simp_all

/-! ### Runs and traces -/

theorem run_append (s : State) (xs ys : List Nat) :
    run s (xs ++ ys) = run (run s xs) ys := by
  induction xs generalizing s with
  | nil => rfl
  | cons x xs ih => exact ih _

theorem trace_append (s : State) (xs ys : List Nat) :
    trace s (xs ++ ys) = trace s xs ++ trace (run s xs) ys := by
  induction xs generalizing s with
  | nil => rfl
  | cons x xs ih => simp [trace, run, ih]

theorem trace_length (s : State) (xs : List Nat) : (trace s xs).length = xs.length := by
  induction xs generalizing s with
  | nil => rfl
  | cons x xs ih => simp [trace, ih]

theorem bumps_const (e : Nat) (l : List State) (h : ∀ t ∈ l, t.btn_epoch = e) :
    bumps e l = 0 := by
  induction l with
  | nil => rfl
  | cons t ts ih =>
    have ht : t.btn_epoch = e := h t (List.mem_cons_self _ _)
    have hts : ∀ u ∈ ts, u.btn_epoch = e := fun u hu => h u (List.mem_cons_of_mem _ hu)
    simp [bumps, ht, ih hts]

theorem bumps_two_phase (e0 e1 : Nat) (A B : List State) (hne : e1 ≠ e0)
    (hA : ∀ t ∈ A, t.btn_epoch = e0) (hB : ∀ t ∈ B, t.btn_epoch = e1) (hB0 : B ≠ []) :
    bumps e0 (A ++ B) = 1 := by
  induction A with
  | nil =>
    cases B with
    | nil => exact absurd rfl hB0
    | cons b bs =>
      have hb : b.btn_epoch = e1 := hB b (List.mem_cons_self _ _)
      have hbs : ∀ u ∈ bs, u.btn_epoch = e1 := fun u hu => hB u (List.mem_cons_of_mem _ hu)
      simp [bumps, hb, hne, bumps_const e1 bs hbs]
  | cons a as ih =>
    have ha : a.btn_epoch = e0 := hA a (List.mem_cons_self _ _)
    have has : ∀ u ∈ as, u.btn_epoch = e0 := fun u hu => hA u (List.mem_cons_of_mem _ hu)
    simp [bumps, ha, ih has]

theorem succ_mod_ne (e : Nat) : (e + 1) % 256 ≠ e := by omega

/-! ### The history register -/

theorem run_hist (s : State) (xs : List Nat) :
    (run s xs).btn_hist = histAfter s.btn_hist xs := by
  induction xs generalizing s with
  | nil => rfl
  | cons x xs ih => simp [run, histAfter, ih, (tick_btn x s).2.1]

theorem staysDown_append (h : Nat) (xs ys : List Nat) :
    StaysDown h (xs ++ ys) ↔ StaysDown h xs ∧ StaysDown (histAfter h xs) ys := by
  induction xs generalizing h with
  | nil => simp [StaysDown, histAfter]
  | cons x xs ih => simp [StaysDown, histAfter, ih, and_assoc]

theorem staysDown_pressed (h : Nat) (xs : List Nat) (hp : ∀ x ∈ xs, x &&& BTN = 0) :
    StaysDown h xs := by
  induction xs generalizing h with
  | nil => trivial
  | cons x xs ih =>
    have hx := histNext_pressed h x (hp x (List.mem_cons_self _ _))
    refine ⟨by omega, ih _ (fun y hy => hp y (List.mem_cons_of_mem _ hy))⟩

theorem histAfter_pressed (h : Nat) (xs : List Nat) (hp : ∀ x ∈ xs, x &&& BTN = 0)
    (hh : h % 2 = 1 ∧ h < 256) : histAfter h xs % 2 = 1 ∧ histAfter h xs < 256 := by
  induction xs generalizing h with
  | nil => exact hh
  | cons x xs ih =>
    exact ih _ (fun y hy => hp y (List.mem_cons_of_mem _ hy))
      (histNext_pressed h x (hp x (List.mem_cons_self _ _)))

theorem histAfter_released (m j : Nat) (xs : List Nat) (hr : ∀ x ∈ xs, x &&& BTN ≠ 0) :
    histAfter ((m * 2 ^ j) % 256) xs = (m * 2 ^ (j + xs.length)) % 256 := by
  induction xs generalizing j with
  | nil => rfl
  | cons x xs ih =>
    have hx := histNext_released ((m * 2 ^ j) % 256) x (hr x (List.mem_cons_self _ _))
    have e : ((m * 2 ^ j) % 256 * 2) % 256 = (m * 2 ^ (j + 1)) % 256 := by
      rw [pow_succ, ← Nat.mul_assoc, Nat.mod_mul_mod]
    simp only [histAfter, hx, e, List.length_cons]
    rw [ih (j + 1) (fun y hy => hr y (List.mem_cons_of_mem _ hy))]
    have hexp : j + 1 + xs.length = j + (xs.length + 1) := by omega
    rw [hexp]

theorem odd_shift_ne_zero (m j : Nat) (hm : m % 2 = 1) (hj : j < 8) : (m * 2 ^ j) % 256 ≠ 0 := by
  interval_cases j <;> omega

theorem staysDown_released (m j : Nat) (xs : List Nat) (hm : m % 2 = 1)
    (hr : ∀ x ∈ xs, x &&& BTN ≠ 0) (hl : j + xs.length ≤ 7) :
    StaysDown ((m * 2 ^ j) % 256) xs := by
  induction xs generalizing j with
  | nil => trivial
  | cons x xs ih =>
    have hx := histNext_released ((m * 2 ^ j) % 256) x (hr x (List.mem_cons_self _ _))
    have e : ((m * 2 ^ j) % 256 * 2) % 256 = (m * 2 ^ (j + 1)) % 256 := by
      rw [pow_succ, ← Nat.mul_assoc, Nat.mod_mul_mod]
    simp only [List.length_cons] at hl
    simp only [StaysDown, hx, e]
    exact ⟨odd_shift_ne_zero m (j + 1) hm (by omega),
      ih (j + 1) (fun y hy => hr y (List.mem_cons_of_mem _ hy)) (by omega)⟩

/-! ### Single ticks of the button classifier -/

theorem elapsed_after (ts k : Nat) (hk : k + 1 < 32768) :
    toInt16 (sub16 (((ts + k) % 65536 + 1) % 65536) ts) = ((k + 1 : Nat) : Int) := by
  have h : sub16 (((ts + k) % 65536 + 1) % 65536) ts = k + 1 := by
    unfold sub16; omega
  rw [h]
  unfold toInt16
  have h2 : (k + 1) % 65536 = k + 1 := by omega
  rw [h2, if_pos hk]

theorem start_tick (p : Nat) (s : State) (hz : s.btn_hist = 0) (hp : p &&& BTN = 0) :
    Pending ((s.wdt_clock + 1) % 65536) s.btn_epoch 0 (watchdog_timer p s) ∧
      (watchdog_timer p s).btn_hist % 2 = 1 ∧ (watchdog_timer p s).btn_hist < 256 := by
  obtain ⟨hc, hh, hts, hev, hep⟩ := tick_btn p s
  have hn := histNext_pressed s.btn_hist p hp
  have hn0 : histNext s.btn_hist p ≠ 0 := by omega
  refine ⟨⟨?_, ?_, ?_, ?_, ?_⟩, ?_, ?_⟩
  · rw [hh]; exact hn0
  · rw [hts, if_pos hn0, if_pos hz]
  · rw [hc]; simp
  · rw [hev, if_pos hn0, if_pos hz]
  · rw [hep, if_pos hn0, if_pos hz]
  · rw [hh]; exact hn.1
  · rw [hh]; exact hn.2

theorem pending_tick (p : Nat) (s : State) (ts e k : Nat) (hs : Pending ts e k s)
    (hn : histNext s.btn_hist p ≠ 0) (hk : k + 1 ≤ 200) :
    Pending ts e (k + 1) (watchdog_timer p s) := by
  obtain ⟨hc, hh, hts, hev, hep⟩ := tick_btn p s
  obtain ⟨h0, h1, h2, h3, h4⟩ := hs
  have hel := elapsed_after ts k (by omega)
  rw [← h2, ← h1] at hel
  have hle : ¬ (toInt16 (sub16 ((s.wdt_clock + 1) % 65536) s.btn_pressed_ts) > 200) := by
    rw [hel]; push_cast; omega
  refine ⟨?_, ?_, ?_, ?_, ?_⟩
  · rw [hh]; exact hn
  · rw [hts]; simp [hn, h0, h1]
  · rw [hc, h2]; omega
  · rw [hev]; simp [hn, h0, h3, hle]
  · rw [hep]; simp [hn, h0, h3, hle, h4]

theorem pending_fire (p : Nat) (s : State) (ts e k : Nat) (hs : Pending ts e k s)
    (hn : histNext s.btn_hist p ≠ 0) (hk : 200 ≤ k) (hk2 : k + 1 < 32768) :
    Fired ((e + 1) % 256) (watchdog_timer p s) := by
  obtain ⟨hc, hh, hts, hev, hep⟩ := tick_btn p s
  obtain ⟨h0, h1, h2, h3, h4⟩ := hs
  have hel := elapsed_after ts k hk2
  rw [← h2, ← h1] at hel
  have hgt : toInt16 (sub16 ((s.wdt_clock + 1) % 65536) s.btn_pressed_ts) > 200 := by
    rw [hel]; push_cast; omega
  refine ⟨?_, ?_, ?_⟩
  · rw [hh]; exact hn
  · rw [hev]; simp [hn, h0, h3, hgt]
  · rw [hep]; simp [hn, h0, h3, hgt, h4]

theorem fired_tick (p : Nat) (s : State) (e : Nat) (hs : Fired e s)
    (hn : histNext s.btn_hist p ≠ 0) : Fired e (watchdog_timer p s) := by
  obtain ⟨hc, hh, hts, hev, hep⟩ := tick_btn p s
  obtain ⟨h0, h3, h4⟩ := hs
  refine ⟨?_, ?_, ?_⟩
  · rw [hh]; exact hn
  · rw [hev]; simp [hn, h0, h3]
  · rw [hep]; simp [hn, h0, h3, h4]

theorem pending_release (p : Nat) (s : State) (ts e k : Nat) (hs : Pending ts e k s)
    (hn : histNext s.btn_hist p = 0) :
    (watchdog_timer p s).btn_hist = 0 ∧ (watchdog_timer p s).btn_evt = btn_released ∧
      (watchdog_timer p s).btn_epoch = (e + 1) % 256 := by
  obtain ⟨hc, hh, hts, hev, hep⟩ := tick_btn p s
  obtain ⟨h0, h1, h2, h3, h4⟩ := hs
  refine ⟨?_, ?_, ?_⟩
  · rw [hh]; exact hn
  · rw [hev]; simp [hn, h0, h3]
  · rw [hep]; simp [hn, h0, h3, h4]

theorem fired_release (p : Nat) (s : State) (e : Nat) (hs : Fired e s)
    (hn : histNext s.btn_hist p = 0) :
    (watchdog_timer p s).btn_hist = 0 ∧ (watchdog_timer p s).btn_evt = btn_long_pressed ∧
      (watchdog_timer p s).btn_epoch = e := by
  obtain ⟨hc, hh, hts, hev, hep⟩ := tick_btn p s
  obtain ⟨h0, h3, h4⟩ := hs
  refine ⟨?_, ?_, ?_⟩
  · rw [hh]; exact hn
  · rw [hev]; simp [hn, h0, h3]
  · rw [hep]; simp [hn, h0, h3, h4]

/-! ### Phases of an interaction -/

theorem pending_run (ts e : Nat) (xs : List Nat) (s : State) (k : Nat) (hs : Pending ts e k s)
    (hd : StaysDown s.btn_hist xs) (hk : k + xs.length ≤ 200) :
    Pending ts e (k + xs.length) (run s xs) ∧
      ∀ t ∈ trace s xs, t.btn_hist ≠ 0 ∧ t.btn_evt = btn_none ∧ t.btn_epoch = e := by
  induction xs generalizing s k with
  | nil => exact ⟨hs, by simp [trace]⟩
  | cons x xs ih =>
    simp only [List.length_cons] at hk
    have h1 := pending_tick x s ts e k hs hd.1 (by omega)
    have hd2 : StaysDown (watchdog_timer x s).btn_hist xs := by
      rw [(tick_btn x s).2.1]; exact hd.2
    obtain ⟨ha, hb⟩ := ih (watchdog_timer x s) (k + 1) h1 hd2 (by omega)
    refine ⟨?_, ?_⟩
    · simp only [run, List.length_cons]
      have : k + (xs.length + 1) = k + 1 + xs.length := by omega
      rw [this]; exact ha
    · intro t ht
      simp only [trace, List.mem_cons] at ht
      rcases ht with rfl | ht
      · exact ⟨h1.1, h1.2.2.2.1, h1.2.2.2.2⟩
      · exact hb t ht

theorem fired_run (e : Nat) (xs : List Nat) (s : State) (hs : Fired e s)
    (hd : StaysDown s.btn_hist xs) :
    Fired e (run s xs) ∧
      ∀ t ∈ trace s xs, t.btn_hist ≠ 0 ∧ t.btn_evt = btn_long_pressed ∧ t.btn_epoch = e := by
  induction xs generalizing s with
  | nil => exact ⟨hs, by simp [trace]⟩
  | cons x xs ih =>
    have h1 := fired_tick x s e hs hd.1
    have hd2 : StaysDown (watchdog_timer x s).btn_hist xs := by
      rw [(tick_btn x s).2.1]; exact hd.2
    obtain ⟨ha, hb⟩ := ih (watchdog_timer x s) h1 hd2
    refine ⟨ha, ?_⟩
    intro t ht
    simp only [trace, List.mem_cons] at ht
    rcases ht with rfl | ht
    · exact h1
    · exact hb t ht

/-- An interaction that is classified by its release: from a zero history, a pressed
sample, then at most 200 samples during which the history stays non-zero, then a
sample that empties the history. -/
theorem short_core (s : State) (x r : Nat) (ys : List Nat) (hz : s.btn_hist = 0)
    (hx : x &&& BTN = 0) (hd : StaysDown (histNext s.btn_hist x) ys) (hl : ys.length ≤ 200)
    (hfin : histNext (histAfter (histNext s.btn_hist x) ys) r = 0) :
    (∀ t ∈ (trace s (x :: ys ++ [r])).dropLast,
        t.btn_hist ≠ 0 ∧ t.btn_evt = btn_none ∧ t.btn_epoch = s.btn_epoch) ∧
    (run s (x :: ys ++ [r])).btn_hist = 0 ∧
    (run s (x :: ys ++ [r])).btn_evt = btn_released ∧
    (run s (x :: ys ++ [r])).btn_epoch = (s.btn_epoch + 1) % 256 ∧
    epochBumps s (x :: ys ++ [r]) = 1 ∧
    ∀ t ∈ trace s (x :: ys ++ [r]), t.btn_evt ≠ btn_long_pressed := by
  have hs1 := (start_tick x s hz hx).1
  have hh1 : (watchdog_timer x s).btn_hist = histNext s.btn_hist x := (tick_btn x s).2.1
  obtain ⟨hp2, htr⟩ := pending_run _ _ ys (watchdog_timer x s) 0 hs1 (by rw [hh1]; exact hd)
    (by omega)
  have hh2 : (run (watchdog_timer x s) ys).btn_hist = histAfter (histNext s.btn_hist x) ys := by
    rw [run_hist, hh1]
  obtain ⟨hf1, hf2, hf3⟩ := pending_release r _ _ _ _ hp2 (by rw [hh2]; exact hfin)
  have hrun : run s (x :: ys ++ [r]) = watchdog_timer r (run (watchdog_timer x s) ys) := by
    simp [run, run_append]
  have htrace : trace s (x :: ys ++ [r]) =
      (watchdog_timer x s :: trace (watchdog_timer x s) ys) ++
        [watchdog_timer r (run (watchdog_timer x s) ys)] := by
    simp [trace, trace_append]
  have hA : ∀ t ∈ watchdog_timer x s :: trace (watchdog_timer x s) ys,
      t.btn_hist ≠ 0 ∧ t.btn_evt = btn_none ∧ t.btn_epoch = s.btn_epoch := by
    intro t ht
    rcases List.mem_cons.1 ht with rfl | ht
    · exact ⟨hs1.1, hs1.2.2.2.1, hs1.2.2.2.2⟩
    · exact htr t ht
  refine ⟨?_, ?_, ?_, ?_, ?_, ?_⟩
  · rw [htrace, List.dropLast_concat]; exact hA
  · rw [hrun]; exact hf1
  · rw [hrun]; exact hf2
  · rw [hrun]; exact hf3
  · unfold epochBumps
    rw [htrace]
    refine bumps_two_phase s.btn_epoch ((s.btn_epoch + 1) % 256) _ _ (succ_mod_ne _)
      (fun t ht => (hA t ht).2.2) ?_ (by simp)
    intro t ht
    rw [List.mem_singleton.1 ht]; exact hf3
  · intro t ht
    rw [htrace] at ht
    rcases List.mem_append.1 ht with ht | ht
    · rw [(hA t ht).2.1]; decide
    · rw [List.mem_singleton.1 ht, hf2]; decide

/-- An interaction that is classified as a long press: from a zero history, a pressed
sample, then more than 200 samples during which the history stays non-zero, then a
sample that empties the history. -/
theorem long_core (s : State) (x r : Nat) (ys : List Nat) (hz : s.btn_hist = 0)
    (hx : x &&& BTN = 0) (hd : StaysDown (histNext s.btn_hist x) ys) (hl : 200 < ys.length)
    (hfin : histNext (histAfter (histNext s.btn_hist x) ys) r = 0) :
    (∀ t ∈ (trace s (x :: ys ++ [r])).take 201,
        t.btn_hist ≠ 0 ∧ t.btn_evt = btn_none ∧ t.btn_epoch = s.btn_epoch) ∧
    (∀ t ∈ (trace s (x :: ys ++ [r])).drop 201,
        t.btn_evt = btn_long_pressed ∧ t.btn_epoch = (s.btn_epoch + 1) % 256) ∧
    (∀ t ∈ (trace s (x :: ys ++ [r])).dropLast, t.btn_hist ≠ 0) ∧
    (run s (x :: ys ++ [r])).btn_hist = 0 ∧
    (run s (x :: ys ++ [r])).btn_evt = btn_long_pressed ∧
    (run s (x :: ys ++ [r])).btn_epoch = (s.btn_epoch + 1) % 256 ∧
    epochBumps s (x :: ys ++ [r]) = 1 := by
  -- split the held samples into the first 200, the one that fires, and the rest
  obtain ⟨A, y, B, rfl, hAl⟩ : ∃ A y B, ys = A ++ y :: B ∧ A.length = 200 := by
    have hsplit := List.take_append_drop 200 ys
    have hlen : (ys.drop 200).length = ys.length - 200 := List.length_drop 200 ys
    cases hB : ys.drop 200 with
    | nil => rw [hB] at hlen; simp at hlen; omega
    | cons y B =>
      refine ⟨ys.take 200, y, B, ?_, ?_⟩
      · rw [← hB]; exact hsplit.symm
      · rw [List.length_take]; omega
  obtain ⟨hdA, hdy, hdB⟩ :
      StaysDown (histNext s.btn_hist x) A ∧
      histNext (histAfter (histNext s.btn_hist x) A) y ≠ 0 ∧
      StaysDown (histNext (histAfter (histNext s.btn_hist x) A) y) B := by
    have h := (staysDown_append _ A (y :: B)).1 hd
    exact ⟨h.1, h.2.1, h.2.2⟩
  set s1 := watchdog_timer x s with hs1def
  have hs1 := (start_tick x s hz hx).1
  have hh1 : s1.btn_hist = histNext s.btn_hist x := (tick_btn x s).2.1
  obtain ⟨hp2, htrA⟩ := pending_run _ _ A s1 0 hs1 (by rw [hh1]; exact hdA) (by omega)
  set s2 := run s1 A with hs2def
  have hh2 : s2.btn_hist = histAfter (histNext s.btn_hist x) A := by
    rw [hs2def, run_hist, hh1]
  have hf := pending_fire y s2 _ _ _ hp2 (by rw [hh2]; exact hdy) (by omega) (by omega)
  set s3 := watchdog_timer y s2 with hs3def
  have hh3 : s3.btn_hist = histNext (histAfter (histNext s.btn_hist x) A) y := by
    rw [hs3def, (tick_btn y s2).2.1, hh2]
  obtain ⟨hf4, htrB⟩ := fired_run _ B s3 hf (by rw [hh3]; exact hdB)
  set s4 := run s3 B with hs4def
  have hh4 : s4.btn_hist = histAfter (histNext s.btn_hist x) (A ++ y :: B) := by
    rw [hs4def, run_hist, hh3]
    have : ∀ (h : Nat) (l1 l2 : List Nat), histAfter h (l1 ++ l2) = histAfter (histAfter h l1) l2 := by
      intro h l1
      induction l1 generalizing h with
      | nil => intro l2; rfl
      | cons a l1 ih => intro l2; exact ih _ l2
    rw [this]; rfl
  obtain ⟨hr1, hr2, hr3⟩ := fired_release r s4 _ hf4 (by rw [hh4]; exact hfin)
  have hrun : run s (x :: (A ++ y :: B) ++ [r]) = watchdog_timer r s4 := by
    simp [run, run_append, hs4def, hs3def, hs2def, hs1def]
  have htrace : trace s (x :: (A ++ y :: B) ++ [r]) =
      (s1 :: trace s1 A) ++ (s3 :: trace s3 B ++ [watchdog_timer r s4]) := by
    simp [trace, trace_append, run, run_append, hs4def, hs3def, hs2def, hs1def]
  have hPl : (s1 :: trace s1 A).length = 201 := by simp [trace_length, hAl]
  have hA : ∀ t ∈ s1 :: trace s1 A,
      t.btn_hist ≠ 0 ∧ t.btn_evt = btn_none ∧ t.btn_epoch = s.btn_epoch := by
    intro t ht
    rcases List.mem_cons.1 ht with rfl | ht
    · exact ⟨hs1.1, hs1.2.2.2.1, hs1.2.2.2.2⟩
    · exact htrA t ht
  have hB : ∀ t ∈ s3 :: trace s3 B ++ [watchdog_timer r s4],
      t.btn_evt = btn_long_pressed ∧ t.btn_epoch = (s.btn_epoch + 1) % 256 := by
    intro t ht
    rcases List.mem_append.1 ht with ht | ht
    · rcases List.mem_cons.1 ht with rfl | ht
      · exact hf.2
      · exact (htrB t ht).2
    · rw [List.mem_singleton.1 ht]; exact ⟨hr2, hr3⟩
  refine ⟨?_, ?_, ?_, ?_, ?_, ?_, ?_⟩
  · rw [htrace, List.take_left' hPl]; exact hA
  · rw [htrace, List.drop_left' hPl]; exact hB
  · rw [htrace, ← List.append_assoc, List.dropLast_concat]
    intro t ht
    rcases List.mem_append.1 ht with ht | ht
    · exact (hA t ht).1
    · rcases List.mem_cons.1 ht with rfl | ht
      · exact hf.1
      · exact (htrB t ht).1
  · rw [hrun]; exact hr1
  · rw [hrun]; exact hr2
  · rw [hrun]; exact hr3
  · unfold epochBumps
    rw [htrace]
    exact bumps_two_phase s.btn_epoch ((s.btn_epoch + 1) % 256) _ _ (succ_mod_ne _)
      (fun t ht => (hA t ht).2.2) (fun t ht => (hB t ht).2) (by simp)

theorem histAfter_append (h : Nat) (l1 l2 : List Nat) :
    histAfter h (l1 ++ l2) = histAfter (histAfter h l1) l2 := by
  induction l1 generalizing h with
  | nil => rfl
  | cons a l1 ih => exact ih _

/-- Shape of a clean interaction: `n ≥ 1` pressed samples followed by 8 not-pressed
ones keep the history non-zero until the very last sample, which empties it. -/
theorem interaction_shape (h0 : Nat) (press rel : List Nat)
    (hp : ∀ x ∈ press, x &&& BTN = 0) (hr : ∀ x ∈ rel, x &&& BTN ≠ 0)
    (hn : 1 ≤ press.length) (hrl : rel.length = 8) :
    ∃ x ys r, press ++ rel = x :: ys ++ [r] ∧ x &&& BTN = 0 ∧
      ys.length = press.length + 6 ∧ StaysDown (histNext h0 x) ys ∧
      histNext (histAfter (histNext h0 x) ys) r = 0 := by
  cases press with
  | nil => simp at hn
  | cons x press1 =>
    rcases List.eq_nil_or_concat rel with h | ⟨rel7, r, h⟩
    · rw [h] at hrl; simp at hrl
    · rw [List.concat_eq_append] at h
      subst h
      have hl7 : rel7.length = 7 := by simpa using hrl
      have hx : x &&& BTN = 0 := hp x (List.mem_cons_self _ _)
      have hp1 : ∀ y ∈ press1, y &&& BTN = 0 := fun y hy => hp y (List.mem_cons_of_mem _ hy)
      have hr7 : ∀ y ∈ rel7, y &&& BTN ≠ 0 := fun y hy => hr y (List.mem_append_left _ hy)
      have hrr : r &&& BTN ≠ 0 := hr r (List.mem_append_right _ (List.mem_singleton_self r))
      have hm := histAfter_pressed (histNext h0 x) press1 hp1 (histNext_pressed h0 x hx)
      have hm0 : histAfter (histNext h0 x) press1 =
          (histAfter (histNext h0 x) press1 * 2 ^ 0) % 256 := by
        rw [pow_zero, Nat.mul_one, Nat.mod_eq_of_lt hm.2]
      refine ⟨x, press1 ++ rel7, r, by simp, hx, by simp [hl7], ?_, ?_⟩
      · rw [staysDown_append]
        refine ⟨staysDown_pressed _ _ hp1, ?_⟩
        rw [hm0]
        exact staysDown_released _ 0 rel7 hm.1 hr7 (by omega)
      · rw [histAfter_append, hm0, histAfter_released _ 0 rel7 hr7, histNext_released _ _ hrr, hl7]
        norm_num
        omega

/-- C2 (as amended): from a zero history, `n` pressed samples with `1 ≤ n ≤ 194`
followed by the 8 not-pressed samples that empty the history give exactly one epoch
increment, on the last tick, which sets the event to released; before that tick the
history is non-zero, the event is none and the epoch is unchanged, and the event is
long-pressed at no tick. -/
theorem short_press_released (s : State) (press rel : List Nat) (hz : s.btn_hist = 0)
    (hp : ∀ x ∈ press, x &&& BTN = 0) (hr : ∀ x ∈ rel, x &&& BTN ≠ 0)
    (hn1 : 1 ≤ press.length) (hn2 : press.length ≤ 194) (hrl : rel.length = 8) :
    (∀ t ∈ (trace s (press ++ rel)).dropLast,
        t.btn_hist ≠ 0 ∧ t.btn_evt = btn_none ∧ t.btn_epoch = s.btn_epoch) ∧
    (run s (press ++ rel)).btn_hist = 0 ∧
    (run s (press ++ rel)).btn_evt = btn_released ∧
    (run s (press ++ rel)).btn_epoch = (s.btn_epoch + 1) % 256 ∧
    epochBumps s (press ++ rel) = 1 ∧
    ∀ t ∈ trace s (press ++ rel), t.btn_evt ≠ btn_long_pressed := by
  obtain ⟨x, ys, r, he, hx, hl, hd, hfin⟩ := interaction_shape s.btn_hist press rel hp hr hn1 hrl
  rw [he]
  exact short_core s x r ys hz hx hd (by omega) hfin

/-- C3: from a zero history and any clock value, `n > 200` pressed samples followed by
the 8 not-pressed samples that empty the history give exactly one epoch increment; it
happens on the 202nd tick and sets the event to long-pressed; the event and the epoch
then stay as they are up to and including the tick on which the history becomes zero. -/
theorem long_press_once (s : State) (press rel : List Nat) (hz : s.btn_hist = 0)
    (hp : ∀ x ∈ press, x &&& BTN = 0) (hr : ∀ x ∈ rel, x &&& BTN ≠ 0)
    (hn : 200 < press.length) (hrl : rel.length = 8) :
    (∀ t ∈ (trace s (press ++ rel)).take 201,
        t.btn_hist ≠ 0 ∧ t.btn_evt = btn_none ∧ t.btn_epoch = s.btn_epoch) ∧
    (∀ t ∈ (trace s (press ++ rel)).drop 201,
        t.btn_evt = btn_long_pressed ∧ t.btn_epoch = (s.btn_epoch + 1) % 256) ∧
    (∀ t ∈ (trace s (press ++ rel)).dropLast, t.btn_hist ≠ 0) ∧
    (run s (press ++ rel)).btn_hist = 0 ∧
    (run s (press ++ rel)).btn_evt = btn_long_pressed ∧
    (run s (press ++ rel)).btn_epoch = (s.btn_epoch + 1) % 256 ∧
    epochBumps s (press ++ rel) = 1 := by
  obtain ⟨x, ys, r, he, hx, hl, hd, hfin⟩ :=
    interaction_shape s.btn_hist press rel hp hr (by omega) hrl
  rw [he]
  exact long_core s x r ys hz hx hd (by omega) hfin

theorem replicate_pressed (n : Nat) : ∀ x ∈ List.replicate n 0, x &&& BTN = 0 := by
  intro x hx
  rw [List.eq_of_mem_replicate hx]
  rfl

theorem replicate_released (n : Nat) : ∀ x ∈ List.replicate n BTN, x &&& BTN ≠ 0 := by
  intro x hx
  rw [List.eq_of_mem_replicate hx]
  decide

theorem short_press_released_witness :
    (run (boot (flash_erase [])) (List.replicate 3 0 ++ List.replicate 8 BTN)).btn_evt = btn_released ∧
    epochBumps (boot (flash_erase [])) (List.replicate 3 0 ++ List.replicate 8 BTN) = 1 :=
  have h := short_press_released (boot (flash_erase [])) (List.replicate 3 0) (List.replicate 8 BTN) rfl
    (replicate_pressed 3) (replicate_released 8) (by rw [List.length_replicate]; omega)
    (by rw [List.length_replicate]; omega) (List.length_replicate 8 BTN)
  ⟨h.2.2.1, h.2.2.2.2.1⟩

theorem long_press_once_witness :
    (run (boot (flash_erase [])) (List.replicate 201 0 ++ List.replicate 8 BTN)).btn_evt = btn_long_pressed ∧
    epochBumps (boot (flash_erase [])) (List.replicate 201 0 ++ List.replicate 8 BTN) = 1 :=
  have h := long_press_once (boot (flash_erase [])) (List.replicate 201 0) (List.replicate 8 BTN) rfl
    (replicate_pressed 201) (replicate_released 8) (by rw [List.length_replicate]; omega)
    (List.length_replicate 8 BTN)
  ⟨h.2.2.2.2.1, h.2.2.2.2.2.2⟩

/-- C2 fails as stated: 195 pressed samples (fewer than the threshold of 200) followed
by 8 not-pressed samples end with the event long-pressed, not released, and the same
holds for 199 pressed samples. -/
theorem short_press_counterexample :
    (195 < 200 ∧ (boot (flash_erase [])).btn_hist = 0 ∧
      (run (boot (flash_erase [])) (List.replicate 195 0 ++ List.replicate 8 BTN)).btn_hist = 0 ∧
      (run (boot (flash_erase [])) (List.replicate 195 0 ++ List.replicate 8 BTN)).btn_evt = btn_long_pressed) ∧
    (199 < 200 ∧
      (run (boot (flash_erase [])) (List.replicate 199 0 ++ List.replicate 8 BTN)).btn_hist = 0 ∧
      (run (boot (flash_erase [])) (List.replicate 199 0 ++ List.replicate 8 BTN)).btn_evt = btn_long_pressed) := by
  obtain ⟨x, ys, r, he, hx, hl, hd, hfin⟩ := interaction_shape (boot (flash_erase [])).btn_hist
    (List.replicate 195 0) (List.replicate 8 BTN) (replicate_pressed 195) (replicate_released 8)
    (by rw [List.length_replicate]; omega) (List.length_replicate 8 BTN)
  obtain ⟨x2, ys2, r2, he2, hx2, hl2, hd2, hfin2⟩ := interaction_shape (boot (flash_erase [])).btn_hist
    (List.replicate 199 0) (List.replicate 8 BTN) (replicate_pressed 199) (replicate_released 8)
    (by rw [List.length_replicate]; omega) (List.length_replicate 8 BTN)
  have h1 := long_core (boot (flash_erase [])) x r ys rfl hx hd (by rw [hl, List.length_replicate]; omega) hfin
  have h2 := long_core (boot (flash_erase [])) x2 r2 ys2 rfl hx2 hd2 (by rw [hl2, List.length_replicate]; omega) hfin2
  rw [← he] at h1
  rw [← he2] at h2
  exact ⟨⟨by decide, rfl, h1.2.2.2.1, h1.2.2.2.2.1⟩, by decide, h2.2.2.2.1, h2.2.2.2.2.1⟩

/-! ### The UI transition table -/

/-- C1: for every mode and every event, `handle_btn_evt` changes the mode exactly as the
transition table says, and leaves it unchanged when the event is none. -/
theorem handle_btn_evt_table (s : State) :
    (handle_btn_evt s).ui_state = specTransition s.ui_state s.btn_evt := by
  unfold handle_btn_evt ui_idle_handler ui_monitor_handler ui_setting_handler ui_set_state
  cases hm : s.ui_state <;> cases he : s.btn_evt <;> simp [specTransition, hm]

theorem t_scan_eq (t : Int) : ((t_scan t T_LEVELS 0 : Nat) : Int) - 1 = specLevel t := by
  unfold specLevel
  simp only [T_LEVELS, t_scan, t_levels, List.getD_cons_zero, List.getD_cons_succ]
  split_ifs <;> simp

theorem wrapInt8_id (z : Int) (h1 : -128 ≤ z) (h2 : z ≤ 127) : wrapInt8 z = z := by
  unfold wrapInt8; omega

theorem specLevel_range (t : Int) : -1 ≤ specLevel t ∧ specLevel t ≤ 4 := by
  unfold specLevel; split_ifs <;> omega

theorem specLevel_mono (t u : Int) (h : t ≤ u) : specLevel t ≤ specLevel u := by
  unfold specLevel; split_ifs <;> omega

theorem t_updated_level_eq (s : State) :
    (t_updated s).t_level_current = specLevel s.t_measured := by
  have h : (t_updated s).t_level_current =
      wrapInt8 (((t_scan s.t_measured T_LEVELS 0 : Nat) : Int) - 1) := by
    unfold t_updated
    simp only []
    split_ifs <;> rfl
  rw [h, t_scan_eq]
  exact wrapInt8_id _ (by have := specLevel_range s.t_measured; omega)
    (by have := specLevel_range s.t_measured; omega)

theorem findIdx_eq (t : Int) : ((t_levels.findIdx (fun l => decide (t < l)) : Nat) : Int) - 1 = specLevel t := by
  unfold specLevel t_levels
  simp only [List.findIdx_cons, List.findIdx_nil]
  split_ifs <;> simp [*]

/-! ### Heater hysteresis and level index -/

theorem heater_bit_set (x : Nat) : ((x ||| HEATER) % 256) &&& HEATER = HEATER := by
  have h := or_one_odd x
  show ((x ||| 1) % 256) &&& 1 = 1
  rw [Nat.and_one_is_mod]
  omega

theorem heater_bit_clear (x : Nat) : (x &&& (255 ^^^ HEATER)) &&& HEATER = 0 := by
  show (x &&& (255 ^^^ 1)) &&& 1 = 0
  rw [Nat.and_assoc]
  have h : (255 ^^^ 1) &&& 1 = 0 := by decide
  rw [h, Nat.and_zero]

theorem level_wrap (t : Int) :
    wrapInt8 (((t_scan t T_LEVELS 0 : Nat) : Int) - 1) = specLevel t := by
  rw [t_scan_eq]
  have h := specLevel_range t
  exact wrapInt8_id _ (by omega) (by omega)

theorem t_updated_idle (s : State) (h : s.ui_state = ui_idle) :
    (t_updated s).P1OUT =
      if specLevel s.t_measured < (s.t_level_set : Int) then (s.P1OUT ||| HEATER) % 256
      else s.P1OUT &&& (255 ^^^ HEATER) := by
  unfold t_updated
  simp only [h, ne_eq, not_true_eq_false, if_false, level_wrap]
  split_ifs <;> rfl

/-- C4: in idle mode `t_updated` leaves the heater bit on exactly when the level index
it has just computed is strictly below the configured threshold level, and off
otherwise; in the other two modes it changes neither output port; in every mode it
stores the level index of the measured temperature. -/
theorem t_updated_heater (s : State) :
    (s.ui_state = ui_idle →
      ((t_updated s).P1OUT &&& HEATER = HEATER ↔
        (t_updated s).t_level_current < (s.t_level_set : Int)) ∧
      ((t_updated s).P1OUT &&& HEATER = 0 ↔
        ¬ (t_updated s).t_level_current < (s.t_level_set : Int))) ∧
    (s.ui_state ≠ ui_idle → (t_updated s).P1OUT = s.P1OUT ∧ (t_updated s).P2OUT = s.P2OUT) ∧
    (t_updated s).t_level_current = specLevel s.t_measured := by
  refine ⟨?_, ?_, t_updated_level_eq s⟩
  · intro h
    rw [t_updated_level_eq s, t_updated_idle s h]
    have h1 : HEATER ≠ 0 := by decide
    by_cases hc : specLevel s.t_measured < (s.t_level_set : Int)
    · simp only [hc, if_true, heater_bit_set, true_iff, not_true_eq_false, iff_false]
      exact ⟨trivial, h1⟩
    · simp only [hc, if_false, heater_bit_clear, iff_false, not_false_eq_true, iff_true]
      exact ⟨fun h => h1 h.symm, trivial⟩
  · intro h
    unfold t_updated
    simp only [h, ne_eq, not_false_eq_true, if_true]
    exact ⟨trivial, trivial⟩

theorem t_updated_heater_witness :
    (t_updated { boot (flash_erase []) with t_measured := 5 }).P1OUT &&& HEATER = HEATER :=
  ((t_updated_heater { boot (flash_erase []) with t_measured := 5 }).1 rfl).1.2 (by decide)

/-- C5: `t_updated` sets the level index to the index of the first entry of
`{2,4,6,8,12}` the measured temperature is strictly below, minus one: -1 below 2, 0 on
2..3, 1 on 4..5, 2 on 6..7, 3 on 8..11 and 4 from 12 on; the index lies in -1..4 and
does not decrease when the temperature increases. -/
theorem t_updated_level (s : State) :
    (t_updated s).t_level_current = specLevel s.t_measured ∧
    (t_updated s).t_level_current =
      ((t_levels.findIdx (fun l => decide (s.t_measured < l)) : Nat) : Int) - 1 ∧
    -1 ≤ (t_updated s).t_level_current ∧ (t_updated s).t_level_current ≤ 4 ∧
    ∀ s2 : State, s.t_measured ≤ s2.t_measured →
      (t_updated s).t_level_current ≤ (t_updated s2).t_level_current := by
  refine ⟨t_updated_level_eq s, ?_, ?_, ?_, ?_⟩
  · rw [t_updated_level_eq s, findIdx_eq]
  · rw [t_updated_level_eq s]; exact (specLevel_range _).1
  · rw [t_updated_level_eq s]; exact (specLevel_range _).2
  · intro s2 h
    rw [t_updated_level_eq s, t_updated_level_eq s2]
    exact specLevel_mono _ _ h

theorem t_updated_level_witness :
    (t_updated { boot (flash_erase []) with t_measured := 5 }).t_level_current ≤
      (t_updated { boot (flash_erase []) with t_measured := 9 }).t_level_current :=
  (t_updated_level { boot (flash_erase []) with t_measured := 5 }).2.2.2.2
    { boot (flash_erase []) with t_measured := 9 } (by decide)


/-! ### Temperature acquisition -/

/-- Temperature fields after one conversion interrupt, for a sample count below 64. -/
theorem adc_step (cal30 x : Nat) (s : State) (h : s.t_cnt < 64) :
    (ADC10_ISR cal30 x s).t_cnt = (s.t_cnt + 1) % 64 ∧
    (ADC10_ISR cal30 x s).t_sum = (if s.t_cnt = 63 then 0 else (s.t_sum + x) % 65536) ∧
    (ADC10_ISR cal30 x s).t_epoch =
      (if s.t_cnt = 63 then (s.t_epoch + 1) % 256 else s.t_epoch) ∧
    (ADC10_ISR cal30 x s).t_measured =
      (if s.t_cnt = 63 then
        wrapInt8 (adc2Temp cal30 ((((s.t_sum + x) % 65536 / 64 : Nat)) : Int))
       else s.t_measured) := by
  unfold ADC10_ISR T_SAMPLES
  by_cases hc : s.t_cnt = 63
  · have h1 : (s.t_cnt + 1) % 256 = 64 := by omega
    simp only [h1, hc, if_true]
    exact ⟨by norm_num, trivial, trivial, trivial⟩
  · have h1 : (s.t_cnt + 1) % 256 ≠ 64 := by omega
    simp only [h1, hc, if_false]
    exact ⟨by show (s.t_cnt + 1) % 256 = (s.t_cnt + 1) % 64; omega, trivial, trivial, trivial⟩

theorem adcRun_append (cal30 : Nat) (s : State) (xs ys : List Nat) :
    adcRun cal30 s (xs ++ ys) = adcRun cal30 (adcRun cal30 s xs) ys := by
  induction xs generalizing s with
  | nil => rfl
  | cons x xs ih => exact ih _

/-- While a batch is incomplete the interrupt only accumulates. -/
theorem adcRun_partial (cal30 : Nat) (xs : List Nat) (s : State)
    (h : s.t_cnt + xs.length < 64) :
    (adcRun cal30 s xs).t_cnt = s.t_cnt + xs.length ∧
    (adcRun cal30 s xs).t_sum % 65536 = (s.t_sum + xs.sum) % 65536 ∧
    (adcRun cal30 s xs).t_epoch = s.t_epoch ∧
    (adcRun cal30 s xs).t_measured = s.t_measured := by
  induction xs generalizing s with
  | nil => simp [adcRun]
  | cons x xs ih =>
    simp only [List.length_cons] at h
    obtain ⟨h1, h2, h3, h4⟩ := adc_step cal30 x s (by omega)
    have hc : s.t_cnt ≠ 63 := by omega
    simp only [hc, if_false] at h2 h3 h4
    have h1b : (ADC10_ISR cal30 x s).t_cnt = s.t_cnt + 1 := by rw [h1]; omega
    obtain ⟨i1, i2, i3, i4⟩ := ih (ADC10_ISR cal30 x s) (by rw [h1b]; omega)
    simp only [adcRun, List.length_cons, List.sum_cons]
    refine ⟨by rw [i1, h1b]; omega, by rw [i2, h2]; omega, by rw [i3, h3], by rw [i4, h4]⟩

/-- The sample count after any number of conversions. -/
theorem adcRun_cnt (cal30 : Nat) (xs : List Nat) (s : State) (h : s.t_cnt < 64) :
    (adcRun cal30 s xs).t_cnt = (s.t_cnt + xs.length) % 64 := by
  induction xs generalizing s with
  | nil => simp only [adcRun, List.length_nil]; omega
  | cons x xs ih =>
    have h1 := (adc_step cal30 x s h).1
    have h2 := ih (ADC10_ISR cal30 x s) (by rw [h1]; omega)
    simp only [adcRun, List.length_cons]
    rw [h2, h1]; omega

/-- The epoch after any number of conversions. -/
theorem adcRun_epoch (cal30 : Nat) (xs : List Nat) (s : State) (h : s.t_cnt < 64)
    (he : s.t_epoch < 256) :
    (adcRun cal30 s xs).t_epoch = (s.t_epoch + (s.t_cnt + xs.length) / 64) % 256 := by
  induction xs generalizing s with
  | nil => simp only [adcRun, List.length_nil]; omega
  | cons x xs ih =>
    obtain ⟨h1, _, h3, _⟩ := adc_step cal30 x s h
    have h2 := ih (ADC10_ISR cal30 x s) (by rw [h1]; omega)
      (by rw [h3]; split_ifs <;> omega)
    simp only [adcRun, List.length_cons]
    rw [h2, h1, h3]
    split_ifs <;> omega

theorem wrapInt8_wrapInt16 (z : Int) : wrapInt8 (wrapInt16 z) = wrapInt8 z := by
  unfold wrapInt8 wrapInt16; omega

/-- The 64th conversion of a batch stores the narrowed value of the formula. -/
theorem adc_batch (cal30 : Nat) (s : State) (xs : List Nat) (x : Nat)
    (hs : s.t_sum = 0) (hn : s.t_cnt = 0) (hl : xs.length = 63) :
    (adcRun cal30 s (xs ++ [x])).t_measured =
      wrapInt8 (specCelsius (toInt16 cal30) ((xs.sum + x) % 65536)) ∧
    (adcRun cal30 s xs).t_measured = s.t_measured := by
  obtain ⟨p1, p2, _, p4⟩ := adcRun_partial cal30 xs s (by omega)
  have hc : (adcRun cal30 s xs).t_cnt = 63 := by rw [p1, hn, hl]
  obtain ⟨_, _, _, q4⟩ := adc_step cal30 x (adcRun cal30 s xs) (by omega)
  rw [if_pos hc] at q4
  refine ⟨?_, p4⟩
  rw [adcRun_append]
  simp only [adcRun]
  rw [q4]
  have hacc : ((adcRun cal30 s xs).t_sum + x) % 65536 = (xs.sum + x) % 65536 := by
    rw [hs] at p2; omega
  rw [hacc]
  unfold adc2Temp specCelsius TSCALE
  exact wrapInt8_wrapInt16 _

/-- C6 (as amended): for a positive calibration reference, the 64th conversion result of
a batch sets the measured temperature to `(278 + 30) * average / c30 - 278`, with
`average = accumulator / 64` and truncating divisions, narrowed to the signed 8-bit
range of the variable; the stored value is the formula's value itself whenever that
lies in -128..127.  The earlier 63 results leave the measured temperature untouched. -/
theorem adc_measured (cal30 : Nat) (s : State) (xs : List Nat) (x : Nat)
    (_hc : 0 < toInt16 cal30) (hs : s.t_sum = 0) (hn : s.t_cnt = 0) (hl : xs.length = 63) :
    (adcRun cal30 s (xs ++ [x])).t_measured =
      wrapInt8 (specCelsius (toInt16 cal30) ((xs.sum + x) % 65536)) ∧
    (-128 ≤ specCelsius (toInt16 cal30) ((xs.sum + x) % 65536) →
      specCelsius (toInt16 cal30) ((xs.sum + x) % 65536) ≤ 127 →
      (adcRun cal30 s (xs ++ [x])).t_measured =
        specCelsius (toInt16 cal30) ((xs.sum + x) % 65536)) ∧
    (adcRun cal30 s xs).t_measured = s.t_measured := by
  obtain ⟨h1, h2⟩ := adc_batch cal30 s xs x hs hn hl
  exact ⟨h1, fun a b => by rw [h1]; exact wrapInt8_id _ a b, h2⟩

theorem sum_replicate_zero (n : Nat) : (List.replicate n 0).sum = 0 := by
  induction n with
  | zero => rfl
  | succ n ih => rw [List.replicate_succ, List.sum_cons, ih]

theorem adc_measured_witness :
    (adcRun 673 (boot (flash_erase [])) (List.replicate 63 650 ++ [650])).t_measured = 19 := by
  have h := (adc_measured 673 (boot (flash_erase [])) (List.replicate 63 650) 650
    (by decide) rfl rfl (List.length_replicate 63 650)).2.1
  have hsum : (List.replicate 63 650).sum = 40950 := by
    rw [List.sum_replicate]; rfl
  rw [hsum] at h
  exact h (by decide) (by decide)

/-- C6 fails as stated: with calibration reference 673 and a batch of 64 zero results the
formula gives -278, but the stored measured temperature is -22. -/
theorem adc_measured_counterexample :
    0 < toInt16 673 ∧
    specCelsius (toInt16 673) ((List.replicate 64 0).sum % 65536) = -278 ∧
    (adcRun 673 (boot (flash_erase [])) (List.replicate 64 0)).t_measured = -22 := by
  have h := (adc_batch 673 (boot (flash_erase [])) (List.replicate 63 0) 0 rfl rfl
    (List.length_replicate 63 0)).1
  have e : List.replicate 63 0 ++ [0] = List.replicate 64 0 := by
    rw [← List.replicate_succ']
  rw [e, sum_replicate_zero] at h
  refine ⟨by decide, ?_, ?_⟩
  · rw [sum_replicate_zero]; decide
  · rw [h]; decide

/-- C7: starting with a sample count of zero, the conversion result number `k + 1`
increments the temperature epoch (by one, modulo 256) exactly when `k + 1` is a multiple
of 64; right after such an increment the accumulator and the sample count are zero;
after `k` results the epoch has been incremented `k / 64` times. -/
theorem t_epoch_every_64 (cal30 : Nat) (s : State) (xs : List Nat) (x : Nat)
    (hn : s.t_cnt = 0) :
    ((xs.length + 1) % 64 = 0 →
      (adcRun cal30 s (xs ++ [x])).t_epoch = ((adcRun cal30 s xs).t_epoch + 1) % 256 ∧
      (adcRun cal30 s (xs ++ [x])).t_epoch ≠ (adcRun cal30 s xs).t_epoch ∧
      (adcRun cal30 s (xs ++ [x])).t_sum = 0 ∧
      (adcRun cal30 s (xs ++ [x])).t_cnt = 0) ∧
    ((xs.length + 1) % 64 ≠ 0 →
      (adcRun cal30 s (xs ++ [x])).t_epoch = (adcRun cal30 s xs).t_epoch) ∧
    (s.t_epoch < 256 → (adcRun cal30 s xs).t_epoch = (s.t_epoch + xs.length / 64) % 256) := by
  have hc := adcRun_cnt cal30 xs s (by omega)
  rw [hn, Nat.zero_add] at hc
  obtain ⟨q1, q2, q3, _⟩ := adc_step cal30 x (adcRun cal30 s xs) (by rw [hc]; omega)
  have hrun : adcRun cal30 s (xs ++ [x]) = ADC10_ISR cal30 x (adcRun cal30 s xs) := by
    rw [adcRun_append]; rfl
  rw [hrun]
  refine ⟨?_, ?_, ?_⟩
  · intro h
    have h63 : (adcRun cal30 s xs).t_cnt = 63 := by rw [hc]; omega
    rw [if_pos h63] at q2 q3
    refine ⟨q3, ?_, q2, ?_⟩
    · rw [q3]; exact succ_mod_ne _
    · rw [q1, h63]
  · intro h
    have h63 : (adcRun cal30 s xs).t_cnt ≠ 63 := by rw [hc]; omega
    rw [if_neg h63] at q3
    exact q3
  · intro he
    have h := adcRun_epoch cal30 xs s (by omega) he
    rw [hn, Nat.zero_add] at h
    exact h

theorem t_epoch_every_64_witness :
    (adcRun 673 (boot (flash_erase [])) (List.replicate 63 650 ++ [650])).t_epoch =
      ((adcRun 673 (boot (flash_erase [])) (List.replicate 63 650)).t_epoch + 1) % 256 ∧
    (adcRun 673 (boot (flash_erase [])) (List.replicate 63 650 ++ [650])).t_cnt = 0 :=
  have h := (t_epoch_every_64 673 (boot (flash_erase [])) (List.replicate 63 650) 650 rfl).1
    (by rw [List.length_replicate])
  ⟨h.1, h.2.2.2⟩

/-! ### Calibration conversion -/

/-- Without the narrowing of the return value the quotient is monotonic and bounded. -/
theorem quotient_mono (c v1 v2 : Int) (hc : 10 ≤ c) (h0 : 0 ≤ v1) (h12 : v1 ≤ v2)
    (h2 : v2 ≤ 1023) :
    0 ≤ Int.tdiv (308 * v1) c ∧ Int.tdiv (308 * v1) c ≤ Int.tdiv (308 * v2) c ∧
      Int.tdiv (308 * v2) c ≤ 31508 := by
  have hv1 : 0 ≤ 308 * v1 := by omega
  have hv2 : 0 ≤ 308 * v2 := by omega
  have hc0 : 0 ≤ c := by omega
  rw [Int.tdiv_eq_ediv hv1 hc0, Int.tdiv_eq_ediv hv2 hc0]
  refine ⟨Int.ediv_nonneg hv1 hc0, Int.ediv_le_ediv (by omega) (by omega), ?_⟩
  have hq : 0 ≤ 308 * v2 / c := Int.ediv_nonneg hv2 hc0
  have hm : 308 * v2 / c * c ≤ 308 * v2 := Int.ediv_mul_le _ (by omega)
  have h10 : 308 * v2 / c * 10 ≤ 308 * v2 / c * c := Int.mul_le_mul_of_nonneg_left hc hq
  omega

/-- C8 (as amended): for every calibration reference `c30 ≥ 10` and all raw values
`0 ≤ v1 ≤ v2 ≤ 1023`, `adc2Temp v1 ≤ adc2Temp v2`. -/
theorem adc2Temp_mono (cal30 : Nat) (v1 v2 : Int) (hc : 10 ≤ toInt16 cal30)
    (h0 : 0 ≤ v1) (h12 : v1 ≤ v2) (h2 : v2 ≤ 1023) :
    adc2Temp cal30 v1 ≤ adc2Temp cal30 v2 := by
  obtain ⟨a, b, c⟩ := quotient_mono (toInt16 cal30) v1 v2 hc h0 h12 h2
  unfold adc2Temp wrapInt16 TSCALE
  show (Int.tdiv (308 * v1) (toInt16 cal30) - 278 + 32768) % 65536 - 32768 ≤
    (Int.tdiv (308 * v2) (toInt16 cal30) - 278 + 32768) % 65536 - 32768
  omega

theorem adc2Temp_mono_witness : adc2Temp 673 600 ≤ adc2Temp 673 700 :=
  adc2Temp_mono 673 600 700 (by decide) (by decide) (by decide) (by decide)

/-- C8 fails as stated: with the positive calibration reference 1, the raw value 106
converts to 32370 and the larger raw value 108 to -32550. -/
theorem adc2Temp_mono_counterexample :
    0 < toInt16 1 ∧ (106 : Int) ≤ 108 ∧ (108 : Int) ≤ 1023 ∧
    adc2Temp 1 106 = 32370 ∧ adc2Temp 1 108 = -32550 ∧
    ¬ adc2Temp 1 106 ≤ adc2Temp 1 108 := by
  decide

/-! ### The threshold level -/

theorem t_level_set_frame (cal30 : Nat) (s : State) :
    (ui_chk_timeout s).t_level_set = s.t_level_set ∧
    (∀ p, (watchdog_timer p s).t_level_set = s.t_level_set) ∧
    (∀ x, (ADC10_ISR cal30 x s).t_level_set = s.t_level_set) ∧
    (t_updated s).t_level_set = s.t_level_set := by
  refine ⟨(ui_chk_timeout_frame s).2.2.2.2.2.1, ?_, ?_, ?_⟩
  · intro p
    unfold watchdog_timer
    simp only [(ui_chk_timeout_frame _).2.2.2.2.2.1, t_sample,
      (led_process_frame _).2.2.2.2.2.2.2.1, (btn_process_frame _ _).2.2.2.1]
  · intro x
    unfold ADC10_ISR
    simp only []
    split_ifs <;> rfl
  · unfold t_updated
    simp only []
    split_ifs <;> rfl

theorem setting_released (s : State) (hm : s.ui_state = ui_setting)
    (he : s.btn_evt = btn_released) :
    (handle_btn_evt s).t_level_set = (s.t_level_set + 1) % 5 ∧
    (handle_btn_evt s).ui_state = ui_setting ∧ (handle_btn_evt s).btn_evt = btn_released := by
  unfold handle_btn_evt ui_setting_handler ui_set_state T_LEVELS
  simp only [hm, he]
  exact ⟨by show (s.t_level_set + 1) % 5 % 256 = (s.t_level_set + 1) % 5; omega, trivial, trivial⟩

theorem setting_released_iterate (k : Nat) (s : State) (hm : s.ui_state = ui_setting)
    (he : s.btn_evt = btn_released) :
    (handle_btn_evt^[k + 1] s).t_level_set = (s.t_level_set + (k + 1)) % 5 ∧
    (handle_btn_evt^[k + 1] s).ui_state = ui_setting ∧
    (handle_btn_evt^[k + 1] s).btn_evt = btn_released := by
  induction k with
  | zero => exact setting_released s hm he
  | succ k ih =>
    rw [Function.iterate_succ_apply']
    obtain ⟨a, b, c⟩ := ih
    obtain ⟨a2, b2, c2⟩ := setting_released _ b c
    refine ⟨?_, b2, c2⟩
    rw [a2, a]; omega

theorem other_dispatch (s : State)
    (h : ¬ (s.ui_state = ui_setting ∧ s.btn_evt = btn_released)) :
    (handle_btn_evt s).t_level_set = s.t_level_set := by
  unfold handle_btn_evt ui_idle_handler ui_monitor_handler ui_setting_handler ui_set_state
    cfg_save cfg_erase
  cases hm : s.ui_state <;> cases he : s.btn_evt <;> simp_all

theorem boot_level_lt (flash : List Nat) : (boot flash).t_level_set < 5 := by
  unfold boot
  simp only []
  split_ifs with h
  · have h2 : cfg_level { reset_state flash with P1OUT := BTN ||| P1T, P2OUT := P2T } < T_LEVELS :=
      of_decide_eq_true h
    exact h2
  · show 2 < 5
    omega

theorem level_lt_exec (cal30 : Nat) (ops : List Op) (s : State) (h : s.t_level_set < 5) :
    (exec cal30 s ops).t_level_set < 5 := by
  induction ops generalizing s with
  | nil => exact h
  | cons o os ih =>
    apply ih
    obtain ⟨_, f2, f3, f4⟩ := t_level_set_frame cal30 s
    cases o with
    | tick p => show (watchdog_timer p s).t_level_set < 5; rw [f2]; exact h
    | conv x => show (ADC10_ISR cal30 x s).t_level_set < 5; rw [f3]; exact h
    | temp => show (t_updated s).t_level_set < 5; rw [f4]; exact h
    | button =>
      show (handle_btn_evt s).t_level_set < 5
      by_cases hc : s.ui_state = ui_setting ∧ s.btn_evt = btn_released
      · rw [(setting_released s hc.1 hc.2).1]; omega
      · rw [other_dispatch s hc]; exact h

/-- C9: a released event dispatched in setting mode replaces the threshold level `L` by
`(L + 1) mod 5` and stays in setting mode, so `k ≥ 1` releases in a row give
`(L + k) mod 5` and five releases restore a level `L < 5`; every other dispatch, the
timeout check, the tick handler, the conversion interrupt and `t_updated` leave the
threshold level unchanged; the level of the running system is always below 5. -/
theorem threshold_level_changes (cal30 : Nat) (s : State) :
    (s.ui_state = ui_setting → s.btn_evt = btn_released →
      (handle_btn_evt s).t_level_set = (s.t_level_set + 1) % 5 ∧
      (∀ k, 0 < k → (handle_btn_evt^[k] s).t_level_set = (s.t_level_set + k) % 5) ∧
      (s.t_level_set < 5 → (handle_btn_evt^[5] s).t_level_set = s.t_level_set)) ∧
    (¬ (s.ui_state = ui_setting ∧ s.btn_evt = btn_released) →
      (handle_btn_evt s).t_level_set = s.t_level_set) ∧
    (ui_chk_timeout s).t_level_set = s.t_level_set ∧
    (∀ p, (watchdog_timer p s).t_level_set = s.t_level_set) ∧
    (∀ x, (ADC10_ISR cal30 x s).t_level_set = s.t_level_set) ∧
    (t_updated s).t_level_set = s.t_level_set ∧
    (∀ flash ops, (exec cal30 (boot flash) ops).t_level_set < 5) := by
  obtain ⟨f1, f2, f3, f4⟩ := t_level_set_frame cal30 s
  refine ⟨?_, other_dispatch s, f1, f2, f3, f4,
    fun flash ops => level_lt_exec cal30 ops _ (boot_level_lt flash)⟩
  intro hm he
  refine ⟨(setting_released s hm he).1, ?_, ?_⟩
  · intro k hk
    obtain ⟨j, rfl⟩ : ∃ j, k = j + 1 := ⟨k - 1, by omega⟩
    exact (setting_released_iterate j s hm he).1
  · intro hl
    rw [(setting_released_iterate 4 s hm he).1]; omega

theorem threshold_level_changes_witness :
    (handle_btn_evt { boot (flash_erase []) with
        ui_state := ui_setting, btn_evt := btn_released }).t_level_set = 3 ∧
    (handle_btn_evt^[5] { boot (flash_erase []) with
        ui_state := ui_setting, btn_evt := btn_released }).t_level_set = 2 ∧
    (handle_btn_evt { boot (flash_erase []) with
        ui_state := ui_monitor, btn_evt := btn_released }).t_level_set = 2 :=
  have h := threshold_level_changes 673 { boot (flash_erase []) with
    ui_state := ui_setting, btn_evt := btn_released }
  have h2 := threshold_level_changes 673 { boot (flash_erase []) with
    ui_state := ui_monitor, btn_evt := btn_released }
  ⟨(h.1 rfl rfl).1, (h.1 rfl rfl).2.2 (by decide), h2.2.1 (by decide)⟩

/-! ### The idle timeout -/

/-- UI fields after one tick, as a function of the UI fields and the clock before it. -/
theorem tick_ui (p : Nat) (s : State) :
    (watchdog_timer p s).ui_state =
      (if s.ui_state ≠ ui_idle ∧
          toInt16 (sub16 ((s.wdt_clock + 1) % 65536) s.ui_state_ts) > 2000 then ui_idle
       else s.ui_state) ∧
    (watchdog_timer p s).ui_state_ts =
      (if s.ui_state ≠ ui_idle ∧
          toInt16 (sub16 ((s.wdt_clock + 1) % 65536) s.ui_state_ts) > 2000
       then (s.wdt_clock + 1) % 65536
       else s.ui_state_ts) := by
  unfold watchdog_timer ui_chk_timeout elapsed ui_set_state UI_TIMEOUT t_sample
  simp only [(led_process_frame _).2.2.2.2.1, (led_process_frame _).2.2.2.2.2.1,
    (led_process_frame _).2.2.2.2.2.2.1, (btn_process_frame _ _).1, (btn_process_frame _ _).2.1,
    (btn_process_frame _ _).2.2.1]
  constructor <;> split_ifs <;> rfl

theorem elapsed_since (c w k : Nat) (hw : w % 65536 = (c + k) % 65536) (hk : k + 1 < 32768) :
    toInt16 (sub16 ((w + 1) % 65536) c) = ((k + 1 : Nat) : Int) := by
  have h : sub16 ((w + 1) % 65536) c = k + 1 := by
    unfold sub16; omega
  rw [h]
  unfold toInt16
  have h2 : (k + 1) % 65536 = k + 1 := by omega
  rw [h2, if_pos hk]

theorem waiting_tick (p : Nat) (s : State) (st : ui_state_t) (c k : Nat)
    (hs : Waiting st c k s) (hk : k + 1 ≤ 2000) :
    Waiting st c (k + 1) (watchdog_timer p s) := by
  obtain ⟨h1, h2, h3⟩ := hs
  obtain ⟨u1, u2⟩ := tick_ui p s
  have hel := elapsed_since c s.wdt_clock k h3 (by omega)
  have hle : ¬ (s.ui_state ≠ ui_idle ∧
      toInt16 (sub16 ((s.wdt_clock + 1) % 65536) s.ui_state_ts) > 2000) := by
    rw [h2, hel]; push_cast; omega
  rw [if_neg hle] at u1 u2
  refine ⟨by rw [u1, h1], by rw [u2, h2], ?_⟩
  rw [(tick_btn p s).1]; omega

theorem waiting_expire (p : Nat) (s : State) (st : ui_state_t) (c k : Nat)
    (hst : st ≠ ui_idle) (hs : Waiting st c k s) (hk : 2000 ≤ k) (hk2 : k + 1 < 32768) :
    (watchdog_timer p s).ui_state = ui_idle ∧
    (watchdog_timer p s).ui_state_ts = (watchdog_timer p s).wdt_clock ∧
    (watchdog_timer p s).wdt_clock = (c + (k + 1)) % 65536 := by
  obtain ⟨h1, h2, h3⟩ := hs
  obtain ⟨u1, u2⟩ := tick_ui p s
  have hel := elapsed_since c s.wdt_clock k h3 hk2
  have hgt : s.ui_state ≠ ui_idle ∧
      toInt16 (sub16 ((s.wdt_clock + 1) % 65536) s.ui_state_ts) > 2000 := by
    rw [h2, hel, h1]; exact ⟨hst, by push_cast; omega⟩
  rw [if_pos hgt] at u1 u2
  refine ⟨u1, by rw [u2, (tick_btn p s).1], ?_⟩
  rw [(tick_btn p s).1]; omega

theorem waiting_conv (cal30 x : Nat) (s : State) (st : ui_state_t) (c k : Nat)
    (hs : Waiting st c k s) : Waiting st c k (ADC10_ISR cal30 x s) := by
  unfold ADC10_ISR
  simp only []
  split_ifs <;> exact hs

theorem waiting_temp (s : State) (st : ui_state_t) (c k : Nat)
    (hs : Waiting st c k s) : Waiting st c k (t_updated s) := by
  unfold t_updated
  simp only []
  split_ifs <;> exact hs

theorem waiting_exec (cal30 : Nat) (st : ui_state_t) (c : Nat) (ops : List Op) (s : State)
    (k : Nat) (hs : Waiting st c k s) (hnb : ∀ o ∈ ops, o ≠ Op.button)
    (hk : k + ticks ops ≤ 2000) :
    Waiting st c (k + ticks ops) (exec cal30 s ops) := by
  induction ops generalizing s k with
  | nil => exact hs
  | cons o os ih =>
    have hos : ∀ o ∈ os, o ≠ Op.button := fun o ho => hnb o (List.mem_cons_of_mem _ ho)
    cases o with
    | tick p =>
      simp only [ticks] at hk ⊢
      have h := ih (watchdog_timer p s) (k + 1) (waiting_tick p s st c k hs (by omega)) hos
        (by omega)
      have e : k + (ticks os + 1) = k + 1 + ticks os := by omega
      rw [e]; exact h
    | conv x =>
      simp only [ticks] at hk ⊢
      exact ih (ADC10_ISR cal30 x s) k (waiting_conv cal30 x s st c k hs) hos hk
    | temp =>
      simp only [ticks] at hk ⊢
      exact ih (t_updated s) k (waiting_temp s st c k hs) hos hk
    | button => exact absurd rfl (hnb Op.button (List.mem_cons_self _ _))

/-- C10: after monitoring or setting mode has been entered at any clock value, and as
long as no button event is dispatched, the mode and the entry time stamp stay as they are
through the next 2000 ticks (with any conversion interrupts and temperature updates in
between), and the 2001st tick forces the mode to idle and sets the entry time stamp to
the clock; in idle mode the timeout check changes nothing. -/
theorem ui_timeout (cal30 : Nat) (s : State) (st : ui_state_t) (ops : List Op) (p : Nat)
    (hst : st ≠ ui_idle) (hnb : ∀ o ∈ ops, o ≠ Op.button) :
    (ticks ops ≤ 2000 →
      (exec cal30 (ui_set_state st s) ops).ui_state = st ∧
      (exec cal30 (ui_set_state st s) ops).ui_state_ts = s.wdt_clock) ∧
    (ticks ops = 2000 →
      (watchdog_timer p (exec cal30 (ui_set_state st s) ops)).ui_state = ui_idle ∧
      (watchdog_timer p (exec cal30 (ui_set_state st s) ops)).ui_state_ts =
        (watchdog_timer p (exec cal30 (ui_set_state st s) ops)).wdt_clock ∧
      (watchdog_timer p (exec cal30 (ui_set_state st s) ops)).wdt_clock =
        (s.wdt_clock + 2001) % 65536) ∧
    (∀ u : State, u.ui_state = ui_idle → ui_chk_timeout u = u) := by
  have h0 : Waiting st s.wdt_clock 0 (ui_set_state st s) := ⟨rfl, rfl, rfl⟩
  refine ⟨?_, ?_, ?_⟩
  · intro hk
    have h := waiting_exec cal30 st s.wdt_clock ops _ 0 h0 hnb (by omega)
    exact ⟨h.1, h.2.1⟩
  · intro hk
    have h := waiting_exec cal30 st s.wdt_clock ops _ 0 h0 hnb (by omega)
    rw [hk] at h
    exact waiting_expire p _ st s.wdt_clock (0 + 2000) hst h (by omega) (by omega)
  · intro u hu
    unfold ui_chk_timeout
    simp [hu]

theorem ticks_replicate (n p : Nat) : ticks (List.replicate n (Op.tick p)) = n := by
  induction n with
  | zero => rfl
  | succ n ih => rw [List.replicate_succ]; simp only [ticks, ih]

theorem ui_timeout_witness :
    (exec 673 (ui_set_state ui_monitor { boot (flash_erase []) with wdt_clock := 65000 })
        (List.replicate 2000 (Op.tick BTN))).ui_state = ui_monitor ∧
    (watchdog_timer BTN
      (exec 673 (ui_set_state ui_monitor { boot (flash_erase []) with wdt_clock := 65000 })
        (List.replicate 2000 (Op.tick BTN)))).ui_state = ui_idle :=
  have h := ui_timeout 673 { boot (flash_erase []) with wdt_clock := 65000 } ui_monitor
    (List.replicate 2000 (Op.tick BTN)) BTN (by decide)
    (fun o ho => by rw [List.eq_of_mem_replicate ho]; decide)
  ⟨(h.1 (by rw [ticks_replicate])).1, (h.2.1 (ticks_replicate 2000 BTN)).1⟩

/-! ### Start-up and the configuration store -/

theorem boot_fields (b : Nat) (rest : List Nat) :
    (boot (b :: rest)).t_level_set = (if b < 5 then b else 2) ∧
    (boot (b :: rest)).ui_state = ui_idle := by
  unfold boot cfg_valid cfg_level reset_state T_LEVELS
  simp only [List.getD_cons_zero]
  by_cases h : b < 5
  · simp [h]
  · simp [h]

/-- C11: at start-up the threshold level is the persisted byte when that byte is below 5
and the default 2 for every other byte value; either way the mode is idle and the level
is below 5; the main loop is reached with this state when the calibration tag is valid. -/
theorem boot_threshold (b : Nat) (rest : List Nat) :
    (b < 5 → (boot (b :: rest)).t_level_set = b) ∧
    (5 ≤ b → (boot (b :: rest)).t_level_set = 2) ∧
    (cfg_valid (reset_state (b :: rest)) = true ↔ b < 5) ∧
    (boot (b :: rest)).ui_state = ui_idle ∧
    (boot (b :: rest)).t_level_set < 5 ∧
    main_init ADC_TAG (b :: rest) = some (boot (b :: rest)) := by
  obtain ⟨h1, h2⟩ := boot_fields b rest
  refine ⟨?_, ?_, ?_, h2, ?_, ?_⟩
  · intro h; rw [h1, if_pos h]
  · intro h; rw [h1, if_neg (by omega)]
  · unfold cfg_valid cfg_level reset_state T_LEVELS
    simp
  · rw [h1]; split_ifs <;> omega
  · unfold main_init adcTempCalibValid
    simp

theorem boot_threshold_witness :
    (boot (3 :: List.replicate 63 0xFF)).t_level_set = 3 ∧
    (boot (0xFF :: List.replicate 63 0xFF)).t_level_set = 2 :=
  ⟨(boot_threshold 3 (List.replicate 63 0xFF)).1 (by decide),
   (boot_threshold 0xFF (List.replicate 63 0xFF)).2.1 (by decide)⟩

theorem cfg_save_level (s : State) :
    cfg_level (cfg_save s) = s.t_level_set % 256 ∧
    (cfg_save s).cfg_seq = (s.t_level_set % 256) :: List.replicate 63 0xFF := by
  unfold cfg_level cfg_save cfg_erase flash_write flash_erase CFG_SEG_SZ
  simp [List.replicate_succ]

/-- C12: for every level below 5 and every prior content of the configuration segment,
`cfg_save` with that threshold level followed by the load path reports the configuration
as valid and returns exactly that level, and a start-up from the saved segment takes it
as its threshold level. -/
theorem cfg_round_trip (s : State) (level : Nat) (hl : level < 5)
    (hs : s.t_level_set = level) :
    cfg_valid (cfg_save s) = true ∧ cfg_level (cfg_save s) = level ∧
    (boot (cfg_save s).cfg_seq).t_level_set = level := by
  obtain ⟨h1, h2⟩ := cfg_save_level s
  have hm : s.t_level_set % 256 = level := by omega
  rw [hm] at h1 h2
  refine ⟨?_, h1, ?_⟩
  · unfold cfg_valid T_LEVELS
    rw [h1]; exact decide_eq_true hl
  · rw [h2, (boot_fields level _).1, if_pos hl]

theorem cfg_round_trip_witness :
    cfg_valid (cfg_save { boot (flash_erase []) with t_level_set := 4 }) = true ∧
    cfg_level (cfg_save { boot (flash_erase []) with t_level_set := 4 }) = 4 :=
  have h := cfg_round_trip { boot (flash_erase []) with t_level_set := 4 } 4 (by decide) rfl
  ⟨h.1, h.2.1⟩

theorem cfg_seq_frame (cal30 : Nat) (s : State) :
    (ui_chk_timeout s).cfg_seq = s.cfg_seq ∧
    (∀ p, (watchdog_timer p s).cfg_seq = s.cfg_seq) ∧
    (∀ x, (ADC10_ISR cal30 x s).cfg_seq = s.cfg_seq) ∧
    (t_updated s).cfg_seq = s.cfg_seq := by
  refine ⟨(ui_chk_timeout_frame s).2.2.2.2.2.2, ?_, ?_, ?_⟩
  · intro p
    unfold watchdog_timer
    simp only [(ui_chk_timeout_frame _).2.2.2.2.2.2, t_sample,
      (led_process_frame _).2.2.2.2.2.2.2.2, (btn_process_frame _ _).2.2.2.2]
  · intro x
    unfold ADC10_ISR
    simp only []
    split_ifs <;> rfl
  · unfold t_updated
    simp only []
    split_ifs <;> rfl

theorem dispatch_cfg (s : State) :
    (handle_btn_evt s).cfg_seq =
      (if s.ui_state = ui_setting ∧ s.btn_evt = btn_long_pressed then (cfg_save s).cfg_seq
       else s.cfg_seq) := by
  unfold handle_btn_evt ui_idle_handler ui_monitor_handler ui_setting_handler ui_set_state
  cases hm : s.ui_state <;> cases he : s.btn_evt <;> simp

/-- C13: the configuration segment is written only by the dispatch of a long-pressed
event in setting mode, which saves the current threshold level; every other dispatch (in
particular released in setting mode), the timeout check, the tick handler, the conversion
interrupt and `t_updated` leave the segment unchanged. -/
theorem cfg_written_once (cal30 : Nat) (s : State) :
    (s.ui_state = ui_setting → s.btn_evt = btn_long_pressed →
      (handle_btn_evt s).cfg_seq = (cfg_save s).cfg_seq ∧
      cfg_level (handle_btn_evt s) = s.t_level_set % 256) ∧
    (¬ (s.ui_state = ui_setting ∧ s.btn_evt = btn_long_pressed) →
      (handle_btn_evt s).cfg_seq = s.cfg_seq) ∧
    (s.ui_state = ui_setting → s.btn_evt = btn_released →
      (handle_btn_evt s).cfg_seq = s.cfg_seq) ∧
    (ui_chk_timeout s).cfg_seq = s.cfg_seq ∧
    (∀ p, (watchdog_timer p s).cfg_seq = s.cfg_seq) ∧
    (∀ x, (ADC10_ISR cal30 x s).cfg_seq = s.cfg_seq) ∧
    (t_updated s).cfg_seq = s.cfg_seq := by
  have hd := dispatch_cfg s
  refine ⟨?_, ?_, ?_, cfg_seq_frame cal30 s⟩
  · intro hm he
    rw [if_pos ⟨hm, he⟩] at hd
    refine ⟨hd, ?_⟩
    unfold cfg_level
    rw [hd]
    exact (cfg_save_level s).1
  · intro h
    rw [if_neg h] at hd
    exact hd
  · intro hm he
    rw [if_neg (by rw [he]; simp)] at hd
    exact hd

theorem cfg_written_once_witness :
    cfg_level (handle_btn_evt { boot (flash_erase []) with
      ui_state := ui_setting, btn_evt := btn_long_pressed, t_level_set := 4 }) = 4 ∧
    (handle_btn_evt { boot (flash_erase []) with
      ui_state := ui_setting, btn_evt := btn_released, t_level_set := 4 }).cfg_seq =
      flash_erase [] :=
  ⟨((cfg_written_once 673 { boot (flash_erase []) with
      ui_state := ui_setting, btn_evt := btn_long_pressed, t_level_set := 4 }).1 rfl rfl).2,
   (cfg_written_once 673 { boot (flash_erase []) with
      ui_state := ui_setting, btn_evt := btn_released, t_level_set := 4 }).2.2.1 rfl rfl⟩

/-! ### The clock -/

/-- C14: `elapsed` is correct across the wrap of the 16-bit tick counter: when the clock
is `(since + d) mod 65536` with `0 ≤ d < 32768`, `elapsed since` is `d`, also when the
clock has wrapped and is numerically below `since`. -/
theorem elapsed_wraparound (s : State) (since d : Nat)
    (hd : d < 32768) (hc : s.wdt_clock = (since + d) % 65536) :
    elapsed s since = (d : Int) := by
  unfold elapsed
  have h : sub16 s.wdt_clock since = d := by
    unfold sub16; omega
  rw [h]
  unfold toInt16
  have h2 : d % 65536 = d := by omega
  rw [h2, if_pos hd]

theorem elapsed_wraparound_witness :
    elapsed { boot (flash_erase []) with wdt_clock := 1464 } 65000 = 2000 :=
  elapsed_wraparound { boot (flash_erase []) with wdt_clock := 1464 } 65000 2000
    (by decide) (by decide)

/-! ### The history register holds the last 8 samples -/

theorem testBit_histNext (h p i : Nat) :
    (histNext h p).testBit i =
      (if i = 0 then sampleBit p else (decide (i < 8) && h.testBit (i - 1))) := by
  unfold histNext sampleBit
  have h256 : (256 : Nat) = 2 ^ 8 := by norm_num
  rw [Nat.testBit_or, h256, Nat.testBit_mod_two_pow, Nat.testBit_shiftLeft]
  cases i with
  | zero =>
    by_cases hp : p &&& BTN = 0 <;> simp [hp]
  | succ j =>
    have h1 : Nat.testBit 1 (j + 1) = false := by
      rw [Nat.testBit_succ]; simp
    by_cases hp : p &&& BTN = 0 <;> simp [hp, h1]

theorem histAfter_snoc (h : Nat) (xs : List Nat) (x : Nat) :
    histAfter h (xs ++ [x]) = histNext (histAfter h xs) x := by
  rw [histAfter_append]; rfl

theorem recentSample_snoc_zero (xs : List Nat) (x : Nat) :
    recentSample (xs ++ [x]) 0 = sampleBit x := by
  unfold recentSample
  simp

theorem recentSample_snoc_succ (xs : List Nat) (x i : Nat) :
    recentSample (xs ++ [x]) (i + 1) = recentSample xs i := by
  unfold recentSample
  simp

/-- Bits of the history after a list of samples: the recent samples, then what is left
of the initial history. -/
theorem testBit_histAfter (h : Nat) (xs : List Nat) (i : Nat) (hi : i < 8) :
    (histAfter h xs).testBit i =
      (if i < xs.length then recentSample xs i else h.testBit (i - xs.length)) := by
  induction xs using List.reverseRecOn generalizing i with
  | nil => simp [histAfter]
  | append_singleton xs x ih =>
    rw [histAfter_snoc, testBit_histNext]
    cases i with
    | zero => simp [recentSample_snoc_zero]
    | succ j =>
      have hj : j < 8 := by omega
      rw [recentSample_snoc_succ]
      simp only [Nat.succ_ne_zero, if_false, hi, decide_True, Bool.true_and,
        Nat.add_sub_cancel, List.length_append, List.length_singleton]
      rw [ih j hj]
      by_cases hl : j < xs.length
      · simp [hl]
      · have hl2 : ¬ (j + 1 < xs.length + 1) := by omega
        have e : j + 1 - (xs.length + 1) = j - xs.length := by omega
        simp [hl, hl2, e]

theorem histAfter_lt (h : Nat) (xs : List Nat) (hh : h < 256) : histAfter h xs < 256 := by
  induction xs generalizing h with
  | nil => exact hh
  | cons x xs ih => exact ih _ (histNext_lt h x)

theorem histAfter_lt_of_ne_nil (h : Nat) (xs : List Nat) (hx : xs ≠ []) :
    histAfter h xs < 256 := by
  cases xs with
  | nil => exact absurd rfl hx
  | cons x xs => exact histAfter_lt _ xs (histNext_lt h x)

theorem eq_of_low_bits (a b : Nat) (ha : a < 256) (hb : b < 256)
    (h : ∀ i, i < 8 → a.testBit i = b.testBit i) : a = b := by
  apply Nat.eq_of_testBit_eq
  intro i
  by_cases hi : i < 8
  · exact h i hi
  · have h8 : (2 : Nat) ^ 8 ≤ 2 ^ i := Nat.pow_le_pow_right (by norm_num) (by omega)
    rw [Nat.testBit_lt_two_pow (by omega), Nat.testBit_lt_two_pow (by omega)]

theorem recentSample_append (old recent : List Nat) (i : Nat) (hi : i < recent.length) :
    recentSample (old ++ recent) i = recentSample recent i := by
  unfold recentSample
  rw [List.reverse_append, List.map_append]
  rw [List.getD_eq_getElem?_getD, List.getD_eq_getElem?_getD,
    List.getElem?_append_left (by simp [hi])]

/-- C15: fed one sample per tick from a zero history, the history register holds exactly
the last 8 samples: it is below 256, bit `i` (for `i < 8`) is the sample taken `i` ticks
before the most recent one, 0 for ticks before the start; samples older than 8 ticks,
and the state from which the last 8 samples were fed, have no influence. -/
theorem btn_hist_last8 (s : State) (xs : List Nat) (hz : s.btn_hist = 0) :
    (run s xs).btn_hist < 256 ∧
    (∀ i, i < 8 → (run s xs).btn_hist.testBit i = recentSample xs i) ∧
    (∀ (s2 : State) (old recent : List Nat), xs = old ++ recent → 8 ≤ recent.length →
      (run s xs).btn_hist = (run s2 recent).btn_hist) := by
  refine ⟨?_, ?_, ?_⟩
  · rw [run_hist, hz]; exact histAfter_lt 0 xs (by norm_num)
  · intro i hi
    rw [run_hist, hz, testBit_histAfter 0 xs i hi]
    by_cases hl : i < xs.length
    · simp [hl]
    · unfold recentSample
      rw [if_neg hl, Nat.zero_testBit, List.getD_eq_default]
      simp; omega
  · intro s2 old recent he hl
    have hne : recent ≠ [] := by
      intro h; rw [h] at hl; simp at hl
    subst he
    rw [run_hist, run_hist, hz]
    apply eq_of_low_bits _ _ (histAfter_lt 0 _ (by norm_num)) (histAfter_lt_of_ne_nil _ _ hne)
    intro i hi
    rw [testBit_histAfter 0 _ i hi, testBit_histAfter _ recent i hi]
    have h1 : i < (old ++ recent).length := by rw [List.length_append]; omega
    have h2 : i < recent.length := by omega
    rw [if_pos h1, if_pos h2, recentSample_append old recent i h2]

theorem btn_hist_last8_witness :
    (run (boot (flash_erase [])) [0, BTN, 0]).btn_hist.testBit 0 = true ∧
    (run (boot (flash_erase [])) [0, BTN, 0]).btn_hist.testBit 1 = false ∧
    (run (boot (flash_erase [])) [0, BTN, 0]).btn_hist.testBit 2 = true ∧
    (run (boot (flash_erase [])) [0, BTN, 0]).btn_hist.testBit 3 = false :=
  have h := (btn_hist_last8 (boot (flash_erase [])) [0, BTN, 0] rfl).2.1
  ⟨h 0 (by decide), h 1 (by decide), h 2 (by decide), h 3 (by decide)⟩

/-! ### The indicator lamps -/

/-- The ports after `led_process`: every segment off, the heater bit forced on outside
idle, then the segments selected by two masks that depend on mode, levels and clock only. -/
theorem led_ports (s : State) :
    ∃ c1 c2 : Nat,
      (led_process s).P1OUT =
        (if s.ui_state = ui_idle then (s.P1OUT ||| P1T) % 256
         else (((s.P1OUT ||| P1T) % 256 ||| HEATER) % 256) &&& c1) ∧
      (led_process s).P2OUT = ((s.P2OUT ||| P2T) % 256) &&& c2 ∧
      c1 = (if s.ui_state = ui_idle ∨
              (s.ui_state = ui_setting ∧ s.wdt_clock &&& (1 <<< BLINK_SHIFT) = 0) ∨
              (s.ui_state = ui_monitor ∧ s.t_level_current < 0) then 255
            else 255 ^^^ (((((1 <<< ((if s.ui_state = ui_monitor
              then (s.t_level_current % 256).toNat else s.t_level_set) + 1)) - 1) % 256) &&& 3)
                <<< 4)) ∧
      c2 = (if s.ui_state = ui_idle ∨
              (s.ui_state = ui_setting ∧ s.wdt_clock &&& (1 <<< BLINK_SHIFT) = 0) ∨
              (s.ui_state = ui_monitor ∧ s.t_level_current < 0) then 255
            else 255 ^^^ ((((1 <<< ((if s.ui_state = ui_monitor
              then (s.t_level_current % 256).toNat else s.t_level_set) + 1)) - 1) % 256)
                >>> 2)) := by
  have hlt : ∀ x : Nat, x % 256 &&& 255 = x % 256 := by
    intro x
    have h := Nat.and_pow_two_sub_one_eq_mod (x % 256) 8
    have e : (2 : Nat) ^ 8 - 1 = 255 := by norm_num
    rw [e] at h
    rw [h]
    exact Nat.mod_eq_of_lt (Nat.mod_lt _ (by norm_num))
  refine ⟨_, _, ?_, ?_, rfl, rfl⟩
  · unfold led_process
    simp only []
    split_ifs <;> simp_all [hlt] <;> omega
  · unfold led_process
    simp only []
    split_ifs <;> simp_all [hlt] <;> omega

theorem two_pow_8 : (256 : Nat) = 2 ^ 8 := by norm_num

/-- Bits of port 1 after the two or-assignments and the and-assignment with `c`. -/
theorem p1_bit (x c i : Nat) (hi : i < 8) :
    ((((x ||| P1T) % 256 ||| HEATER) % 256) &&& c).testBit i =
      ((x.testBit i || Nat.testBit 48 i || Nat.testBit 1 i) && c.testBit i) := by
  show ((((x ||| 48) % 256 ||| 1) % 256) &&& c).testBit i = _
  rw [Nat.testBit_and, two_pow_8, Nat.testBit_mod_two_pow, Nat.testBit_or,
    Nat.testBit_mod_two_pow, Nat.testBit_or]
  simp [hi]

/-- Bits of port 2 after the or-assignment and the and-assignment with `c`. -/
theorem p2_bit (x c i : Nat) (hi : i < 8) :
    (((x ||| P2T) % 256) &&& c).testBit i = ((x.testBit i || Nat.testBit 7 i) && c.testBit i) := by
  show (((x ||| 7) % 256) &&& c).testBit i = _
  rw [Nat.testBit_and, two_pow_8, Nat.testBit_mod_two_pow, Nat.testBit_or]
  simp [hi]

theorem p1_idle_bit (x i : Nat) (hi : i < 8) :
    ((x ||| P1T) % 256).testBit i = (x.testBit i || Nat.testBit 48 i) := by
  show ((x ||| 48) % 256).testBit i = _
  rw [two_pow_8, Nat.testBit_mod_two_pow, Nat.testBit_or]
  simp [hi]

theorem testBit_255 (i : Nat) : Nat.testBit 255 i = decide (i < 8) := by
  have h := Nat.testBit_two_pow_sub_one 8 i
  have e : (2 : Nat) ^ 8 - 1 = 255 := by norm_num
  rw [e] at h
  exact h

theorem testBit_3 (i : Nat) : Nat.testBit 3 i = decide (i < 2) := by
  have h := Nat.testBit_two_pow_sub_one 2 i
  have e : (2 : Nat) ^ 2 - 1 = 3 := by norm_num
  rw [e] at h
  exact h

/-- Bits of the 8-bit `mask` of `led_process` for the level `t`. -/
theorem testBit_mask (t i : Nat) :
    (((1 <<< (t + 1)) - 1) % 256).testBit i = (decide (i < 8) && decide (i < t + 1)) := by
  rw [two_pow_8, Nat.testBit_mod_two_pow, Nat.one_shiftLeft, Nat.testBit_two_pow_sub_one]

/-- Bits of the mask applied to port 1 when a bar is shown. -/
theorem testBit_c1 (t i : Nat) :
    (255 ^^^ (((((1 <<< (t + 1)) - 1) % 256) &&& 3) <<< 4)).testBit i =
      (decide (i < 8) && !(decide (4 ≤ i) && decide (i < 6) && decide (i - 4 < t + 1))) := by
  rw [Nat.testBit_xor, testBit_255, Nat.testBit_shiftLeft, Nat.testBit_and, testBit_mask,
    testBit_3]
  by_cases h8 : i < 8 <;> by_cases h4 : 4 ≤ i <;> by_cases h6 : i < 6 <;>
    by_cases ht : i - 4 < t + 1 <;> simp [h8, h4, h6, ht] <;> omega

/-- Bits of the mask applied to port 2 when a bar is shown. -/
theorem testBit_c2 (t i : Nat) :
    (255 ^^^ ((((1 <<< (t + 1)) - 1) % 256) >>> 2)).testBit i =
      (decide (i < 8) && !(decide (i < 6) && decide (i + 2 < t + 1))) := by
  rw [Nat.testBit_xor, testBit_255, Nat.testBit_shiftRight, testBit_mask]
  by_cases h8 : i < 8 <;> by_cases h6 : i < 6 <;>
    by_cases ht : i + 2 < t + 1 <;> simp [h8, h6, ht, Nat.add_comm 2 i] <;> omega

theorem and_16_eq_zero (x : Nat) : x &&& (1 <<< BLINK_SHIFT) = 0 ↔ x / 16 % 2 = 0 := by
  have e : (1 : Nat) <<< BLINK_SHIFT = 2 ^ 4 := by decide
  have hb : x.testBit 4 = decide (x / 2 ^ 4 % 2 = 1) := Nat.testBit_to_div_mod
  have e16 : (2 : Nat) ^ 4 = 16 := by norm_num
  rw [e]
  constructor
  · intro h
    have h4 : (x &&& 2 ^ 4).testBit 4 = false := by rw [h]; exact Nat.zero_testBit 4
    rw [Nat.testBit_and, Nat.testBit_two_pow_self, Bool.and_true, hb, e16] at h4
    have := of_decide_eq_false h4
    omega
  · intro h
    apply Nat.eq_of_testBit_eq
    intro i
    rw [Nat.testBit_and, Nat.testBit_two_pow, Nat.zero_testBit]
    by_cases hi : 4 = i
    · subst hi
      rw [hb, e16]
      simp [h]
    · simp [hi]

theorem specBar_eq (n : Nat) :
    specBar n = [decide (0 < n), decide (1 < n), decide (2 < n), decide (3 < n),
      decide (4 < n)] := rfl

/-- The lit segments after `led_process`. -/
theorem led_segments (s : State) :
    segments (led_process s) =
      (if s.ui_state = ui_idle ∨
          (s.ui_state = ui_setting ∧ s.wdt_clock &&& (1 <<< BLINK_SHIFT) = 0) ∨
          (s.ui_state = ui_monitor ∧ s.t_level_current < 0) then specBar 0
       else specBar ((if s.ui_state = ui_monitor then (s.t_level_current % 256).toNat
          else s.t_level_set) + 1)) := by
  obtain ⟨c1, c2, h1, h2, hc1, hc2⟩ := led_ports s
  have b4 : Nat.testBit 48 4 = true := by decide
  have b5 : Nat.testBit 48 5 = true := by decide
  have b0 : Nat.testBit 7 0 = true := by decide
  have b1 : Nat.testBit 7 1 = true := by decide
  have b2 : Nat.testBit 7 2 = true := by decide
  unfold segments
  rw [h1, h2, specBar_eq, specBar_eq]
  by_cases hd : s.ui_state = ui_idle ∨
      (s.ui_state = ui_setting ∧ s.wdt_clock &&& (1 <<< BLINK_SHIFT) = 0) ∨
      (s.ui_state = ui_monitor ∧ s.t_level_current < 0)
  · rw [if_pos hd] at hc1 hc2
    rw [if_pos hd, hc1, hc2]
    by_cases hi : s.ui_state = ui_idle
    · rw [if_pos hi]
      simp only [p1_idle_bit _ _ (show 4 < 8 by norm_num), p1_idle_bit _ _ (show 5 < 8 by norm_num),
        p2_bit _ _ _ (show 0 < 8 by norm_num), p2_bit _ _ _ (show 1 < 8 by norm_num),
        p2_bit _ _ _ (show 2 < 8 by norm_num), testBit_255]
      simp [b4, b5, b0, b1, b2]
    · rw [if_neg hi]
      simp only [p1_bit _ _ _ (show 4 < 8 by norm_num), p1_bit _ _ _ (show 5 < 8 by norm_num),
        p2_bit _ _ _ (show 0 < 8 by norm_num), p2_bit _ _ _ (show 1 < 8 by norm_num),
        p2_bit _ _ _ (show 2 < 8 by norm_num), testBit_255]
      simp [b4, b5, b0, b1, b2]
  · rw [if_neg hd] at hc1 hc2
    have hi : ¬ s.ui_state = ui_idle := fun h => hd (Or.inl h)
    rw [if_neg hd, if_neg hi, hc1, hc2]
    simp only [p1_bit _ _ _ (show 4 < 8 by norm_num), p1_bit _ _ _ (show 5 < 8 by norm_num),
      p2_bit _ _ _ (show 0 < 8 by norm_num), p2_bit _ _ _ (show 1 < 8 by norm_num),
      p2_bit _ _ _ (show 2 < 8 by norm_num), testBit_c1, testBit_c2]
    simp [b4, b5, b0, b1, b2]

/-- C16: after `led_process` no segment is lit when the mode is idle, or setting with
clock bit 4 clear (the dark 16-tick half-period), or monitoring with a level below 0;
otherwise exactly the first `L + 1` segments are lit, `L` being the current level in
monitoring and the threshold level in setting, for every `L` in 0..4; the result does not
depend on the ports before. -/
theorem led_process_bar (s : State) :
    ((s.ui_state = ui_idle ∨
        (s.ui_state = ui_setting ∧ s.wdt_clock &&& (1 <<< BLINK_SHIFT) = 0) ∨
        (s.ui_state = ui_monitor ∧ s.t_level_current < 0)) →
      segments (led_process s) = [false, false, false, false, false]) ∧
    (s.ui_state = ui_monitor → ∀ L : Nat, L ≤ 4 → s.t_level_current = (L : Int) →
      segments (led_process s) = specBar (L + 1)) ∧
    (s.ui_state = ui_setting → s.wdt_clock &&& (1 <<< BLINK_SHIFT) ≠ 0 → s.t_level_set ≤ 4 →
      segments (led_process s) = specBar (s.t_level_set + 1)) ∧
    (∀ p1 p2 : Nat,
      segments (led_process { s with P1OUT := p1, P2OUT := p2 }) = segments (led_process s)) ∧
    (s.wdt_clock &&& (1 <<< BLINK_SHIFT) = 0 ↔ s.wdt_clock / 16 % 2 = 0) := by
  refine ⟨?_, ?_, ?_, ?_, and_16_eq_zero _⟩
  · intro h
    rw [led_segments, if_pos h]
    rfl
  · intro hm L hL hc
    have hd : ¬ (s.ui_state = ui_idle ∨
        (s.ui_state = ui_setting ∧ s.wdt_clock &&& (1 <<< BLINK_SHIFT) = 0) ∨
        (s.ui_state = ui_monitor ∧ s.t_level_current < 0)) := by
      rw [hm, hc]
      simp
    have ht : (s.t_level_current % 256).toNat = L := by
      rw [hc]; omega
    rw [led_segments, if_neg hd, if_pos hm, ht]
  · intro hm hb hl
    have hd : ¬ (s.ui_state = ui_idle ∨
        (s.ui_state = ui_setting ∧ s.wdt_clock &&& (1 <<< BLINK_SHIFT) = 0) ∨
        (s.ui_state = ui_monitor ∧ s.t_level_current < 0)) := by
      rw [hm]
      simp [hb]
    have hn : ¬ s.ui_state = ui_monitor := by rw [hm]; decide
    rw [led_segments, if_neg hd, if_neg hn]
  · intro p1 p2
    rw [led_segments, led_segments]

theorem led_process_bar_witness :
    segments (led_process { boot (flash_erase []) with
      ui_state := ui_monitor, t_level_current := 1 }) = [true, true, false, false, false] ∧
    segments (led_process { boot (flash_erase []) with
      ui_state := ui_setting, wdt_clock := 16, t_level_set := 4 }) =
      [true, true, true, true, true] ∧
    segments (led_process { boot (flash_erase []) with
      ui_state := ui_setting, wdt_clock := 32, t_level_set := 4 }) =
      [false, false, false, false, false] :=
  ⟨(led_process_bar { boot (flash_erase []) with
      ui_state := ui_monitor, t_level_current := 1 }).2.1 rfl 1 (by decide) rfl,
   (led_process_bar { boot (flash_erase []) with
      ui_state := ui_setting, wdt_clock := 16, t_level_set := 4 }).2.2.1 rfl (by decide)
      (by decide),
   (led_process_bar { boot (flash_erase []) with
      ui_state := ui_setting, wdt_clock := 32, t_level_set := 4 }).1
      (Or.inr (Or.inl ⟨rfl, by decide⟩))⟩

/-! ### Frame of `led_process` on the ports -/

theorem testBit_zero_and (x : Nat) : x &&& HEATER = (if x.testBit 0 then 1 else 0) := by
  show x &&& 1 = _
  rw [Nat.and_one_is_mod, Nat.testBit_zero]
  by_cases h : x % 2 = 1
  · simp [h]
  · have h0 : x % 2 = 0 := by omega
    simp [h0]

/-- The level shown by `led_process` is at most 4 when the stored levels are. -/
theorem shown_level_le (s : State) (h1 : s.ui_state = ui_monitor → s.t_level_current ≤ 4)
    (h2 : s.ui_state = ui_setting → s.t_level_set ≤ 4)
    (hd : ¬ (s.ui_state = ui_idle ∨
        (s.ui_state = ui_setting ∧ s.wdt_clock &&& (1 <<< BLINK_SHIFT) = 0) ∨
        (s.ui_state = ui_monitor ∧ s.t_level_current < 0))) :
    (if s.ui_state = ui_monitor then (s.t_level_current % 256).toNat else s.t_level_set) ≤ 4 := by
  by_cases hm : s.ui_state = ui_monitor
  · rw [if_pos hm]
    have a := h1 hm
    have b : ¬ s.t_level_current < 0 := fun h => hd (Or.inr (Or.inr ⟨hm, h⟩))
    omega
  · rw [if_neg hm]
    apply h2
    cases hs : s.ui_state with
    | ui_idle => exact absurd (Or.inl hs) hd
    | ui_monitor => exact absurd hs hm
    | ui_setting => rfl

theorem led_frame_bits (s : State) :
    (s.ui_state ≠ ui_idle → (led_process s).P1OUT.testBit 0 = true) ∧
    (s.ui_state = ui_idle → (led_process s).P1OUT.testBit 0 = s.P1OUT.testBit 0) ∧
    (∀ i, i < 8 → i ≠ 0 → i ≠ 4 → i ≠ 5 →
      (led_process s).P1OUT.testBit i = s.P1OUT.testBit i) ∧
    ((s.ui_state = ui_monitor → s.t_level_current ≤ 4) →
      (s.ui_state = ui_setting → s.t_level_set ≤ 4) →
      ∀ i, i < 8 → 3 ≤ i → (led_process s).P2OUT.testBit i = s.P2OUT.testBit i) := by
  obtain ⟨c1, c2, h1, h2, hc1, hc2⟩ := led_ports s
  have hb48 : ∀ i, i ≠ 4 → i ≠ 5 → Nat.testBit 48 i = false := by
    intro i h4 h5
    have e : (48 : Nat) = 3 <<< 4 := by decide
    rw [e, Nat.testBit_shiftLeft, testBit_3]
    by_cases h : 4 ≤ i
    · have : ¬ (i - 4 < 2) := by omega
      simp [this]
    · simp [h]
  have hb1 : ∀ i, i ≠ 0 → Nat.testBit 1 i = false := by
    intro i h0
    have e : (1 : Nat) = 2 ^ 0 := by norm_num
    rw [e, Nat.testBit_two_pow]
    simp [Ne.symm h0]
  have hb7 : ∀ i, 3 ≤ i → Nat.testBit 7 i = false := by
    intro i h3
    have h := Nat.testBit_two_pow_sub_one 3 i
    have e : (2 : Nat) ^ 3 - 1 = 7 := by norm_num
    rw [e] at h
    rw [h]
    simp; omega
  have hc1bit : ∀ i, i < 8 → i ≠ 4 → i ≠ 5 → c1.testBit i = true := by
    intro i hi h4 h5
    rw [hc1]
    by_cases hd : s.ui_state = ui_idle ∨
        (s.ui_state = ui_setting ∧ s.wdt_clock &&& (1 <<< BLINK_SHIFT) = 0) ∨
        (s.ui_state = ui_monitor ∧ s.t_level_current < 0)
    · rw [if_pos hd, testBit_255]; simp [hi]
    · rw [if_neg hd, testBit_c1]
      by_cases a : 4 ≤ i
      · have b : ¬ i < 6 := by omega
        simp [hi, b]
      · simp [hi, a]
  refine ⟨?_, ?_, ?_, ?_⟩
  · intro hn
    rw [h1, if_neg hn, p1_bit _ _ _ (by norm_num), hc1bit 0 (by norm_num) (by norm_num)
      (by norm_num)]
    simp
  · intro hi
    rw [h1, if_pos hi, p1_idle_bit _ _ (by norm_num), hb48 0 (by norm_num) (by norm_num)]
    simp
  · intro i hi h0 h4 h5
    rw [h1]
    split_ifs
    · rw [p1_idle_bit _ _ hi, hb48 i h4 h5]; simp
    · rw [p1_bit _ _ _ hi, hb48 i h4 h5, hb1 i h0, hc1bit i hi h4 h5]; simp
  · intro g1 g2 i hi h3
    rw [h2, p2_bit _ _ _ hi, hb7 i h3]
    have hc2bit : c2.testBit i = true := by
      rw [hc2]
      by_cases hd : s.ui_state = ui_idle ∨
          (s.ui_state = ui_setting ∧ s.wdt_clock &&& (1 <<< BLINK_SHIFT) = 0) ∨
          (s.ui_state = ui_monitor ∧ s.t_level_current < 0)
      · rw [if_pos hd, testBit_255]; simp [hi]
      · rw [if_neg hd, testBit_c2]
        have hl := shown_level_le s g1 g2 hd
        have : ¬ (i + 2 < (if s.ui_state = ui_monitor then (s.t_level_current % 256).toNat
            else s.t_level_set) + 1) := by omega
        simp [hi, this]
    rw [hc2bit]; simp

theorem t_level_current_frame (cal30 : Nat) (s : State) :
    (∀ p, (watchdog_timer p s).t_level_current = s.t_level_current) ∧
    (∀ x, (ADC10_ISR cal30 x s).t_level_current = s.t_level_current) ∧
    (handle_btn_evt s).t_level_current = s.t_level_current := by
  refine ⟨?_, ?_, ?_⟩
  · intro p
    have h1 : ∀ u : State, (ui_chk_timeout u).t_level_current = u.t_level_current := by
      intro u; unfold ui_chk_timeout ui_set_state; split_ifs <;> rfl
    have h2 : ∀ u : State, (led_process u).t_level_current = u.t_level_current := by
      intro u; unfold led_process; simp only []; split_ifs <;> rfl
    have h3 : ∀ u : State, (btn_process p u).t_level_current = u.t_level_current := by
      intro u; unfold btn_process; simp only []; split_ifs <;> rfl
    unfold watchdog_timer
    simp only [h1, h2, h3, t_sample]
  · intro x
    unfold ADC10_ISR
    simp only []
    split_ifs <;> rfl
  · unfold handle_btn_evt ui_idle_handler ui_monitor_handler ui_setting_handler ui_set_state
      cfg_save cfg_erase
    cases hm : s.ui_state <;> cases he : s.btn_evt <;> rfl

/-- In every state of the running system both levels are at most 4. -/
theorem levels_le_exec (cal30 : Nat) (ops : List Op) (s : State)
    (h : s.t_level_set < 5 ∧ s.t_level_current ≤ 4) :
    (exec cal30 s ops).t_level_set < 5 ∧ (exec cal30 s ops).t_level_current ≤ 4 := by
  induction ops generalizing s with
  | nil => exact h
  | cons o os ih =>
    apply ih
    obtain ⟨_, f2, f3, f4⟩ := t_level_set_frame cal30 s
    obtain ⟨g1, g2, g3⟩ := t_level_current_frame cal30 s
    cases o with
    | tick p =>
      show (watchdog_timer p s).t_level_set < 5 ∧ (watchdog_timer p s).t_level_current ≤ 4
      rw [f2, g1]; exact h
    | conv x =>
      show (ADC10_ISR cal30 x s).t_level_set < 5 ∧ (ADC10_ISR cal30 x s).t_level_current ≤ 4
      rw [f3, g2]; exact h
    | temp =>
      show (t_updated s).t_level_set < 5 ∧ (t_updated s).t_level_current ≤ 4
      rw [f4, t_updated_level_eq]; exact ⟨h.1, (specLevel_range _).2⟩
    | button =>
      show (handle_btn_evt s).t_level_set < 5 ∧ (handle_btn_evt s).t_level_current ≤ 4
      rw [g3]
      refine ⟨?_, h.2⟩
      by_cases hc : s.ui_state = ui_setting ∧ s.btn_evt = btn_released
      · rw [(setting_released s hc.1 hc.2).1]; omega
      · rw [other_dispatch s hc]; exact h.1

theorem boot_levels (flash : List Nat) :
    (boot flash).t_level_set < 5 ∧ (boot flash).t_level_current ≤ 4 := by
  refine ⟨boot_level_lt flash, ?_⟩
  have h : (boot flash).t_level_current = 0 := by
    unfold boot
    simp only []
    split_ifs <;> rfl
  rw [h]; norm_num

/-- C18: `led_process` sets the heater bit whenever the mode is monitoring or setting and
leaves it as it was in idle; of the 8 bits of port 1 it changes none other than the heater
bit and the segment bits 4 and 5; of the 8 bits of port 2 it changes none other than the
segment bits 0, 1 and 2, the levels being at most 4 as they are in every state of the
running system. -/
theorem led_process_ports (cal30 : Nat) (s : State) :
    (s.ui_state ≠ ui_idle → (led_process s).P1OUT &&& HEATER = HEATER) ∧
    (s.ui_state = ui_idle → (led_process s).P1OUT &&& HEATER = s.P1OUT &&& HEATER) ∧
    (∀ i, i < 8 → i ≠ 0 → i ≠ 4 → i ≠ 5 →
      (led_process s).P1OUT.testBit i = s.P1OUT.testBit i) ∧
    ((s.ui_state = ui_monitor → s.t_level_current ≤ 4) →
      (s.ui_state = ui_setting → s.t_level_set ≤ 4) →
      ∀ i, i < 8 → 3 ≤ i → (led_process s).P2OUT.testBit i = s.P2OUT.testBit i) ∧
    (∀ (flash : List Nat) (ops : List Op) (i : Nat), i < 8 → 3 ≤ i →
      (led_process (exec cal30 (boot flash) ops)).P2OUT.testBit i =
        (exec cal30 (boot flash) ops).P2OUT.testBit i) := by
  obtain ⟨a, b, c, d⟩ := led_frame_bits s
  refine ⟨?_, ?_, c, d, ?_⟩
  · intro h
    rw [testBit_zero_and, a h]; rfl
  · intro h
    rw [testBit_zero_and, testBit_zero_and, b h]
  · intro flash ops i hi h3
    have hl := levels_le_exec cal30 ops (boot flash) (boot_levels flash)
    exact (led_frame_bits (exec cal30 (boot flash) ops)).2.2.2 (fun _ => hl.2)
      (fun _ => by omega) i hi h3

theorem led_process_ports_witness :
    (led_process { boot (flash_erase []) with ui_state := ui_setting, P1OUT := 0 }).P1OUT
        &&& HEATER = HEATER ∧
    (led_process { boot (flash_erase []) with ui_state := ui_setting, P2OUT := 0 }).P2OUT.testBit 3
        = false :=
  have h := led_process_ports 673 { boot (flash_erase []) with ui_state := ui_setting, P1OUT := 0 }
  have h2 := led_process_ports 673
    { boot (flash_erase []) with ui_state := ui_setting, P2OUT := 0 }
  ⟨h.1 (by decide), h2.2.2.2.1 (fun h => absurd h (by decide)) (fun _ => by decide) 3
    (by decide) (by decide)⟩

/-! ### The end-to-end scenario -/

theorem boot_invalid (b : Nat) (rest : List Nat) (hb : 5 ≤ b) :
    boot (b :: rest) =
      { reset_state (b :: rest) with
        P1OUT := BTN ||| P1T, P2OUT := P2T,
        ADC10CTL0 := SREF_1 + ADC10SHT_3 + REFON + ADC10ON + ADC10IE } := by
  unfold boot cfg_valid cfg_level T_LEVELS
  have h : ¬ b < 5 := by omega
  simp [reset_state, h]

theorem monitor_bar (s : State) (hm : s.ui_state = ui_monitor) (L : Nat)
    (hc : s.t_level_current = (L : Int)) (hL : L ≤ 4) :
    segments (led_process s) = specBar (L + 1) := by
  have hd : ¬ (s.ui_state = ui_idle ∨
      (s.ui_state = ui_setting ∧ s.wdt_clock &&& (1 <<< BLINK_SHIFT) = 0) ∨
      (s.ui_state = ui_monitor ∧ s.t_level_current < 0)) := by
    rw [hm, hc]
    simp
  have ht : (s.t_level_current % 256).toNat = L := by
    rw [hc]; omega
  rw [led_segments, if_neg hd, if_pos hm, ht]

theorem dispatch_released_setting (s : State) (hm : s.ui_state = ui_setting) :
    (dispatch btn_released s).t_level_set = (s.t_level_set + 1) % 5 ∧
    (dispatch btn_released s).ui_state = ui_setting :=
  have h := setting_released { s with btn_evt := btn_released } hm rfl
  ⟨h.1, h.2.1⟩

theorem dispatch_long_setting (s : State) (hm : s.ui_state = ui_setting) :
    cfg_level (dispatch btn_long_pressed s) = s.t_level_set % 256 ∧
    (dispatch btn_long_pressed s).ui_state = ui_idle := by
  have hd := dispatch_cfg { s with btn_evt := btn_long_pressed }
  rw [if_pos ⟨hm, rfl⟩] at hd
  have ht := handle_btn_evt_table { s with btn_evt := btn_long_pressed }
  refine ⟨?_, ?_⟩
  · unfold cfg_level dispatch
    rw [hd]
    exact (cfg_save_level _).1
  · unfold dispatch
    rw [ht]
    show specTransition s.ui_state btn_long_pressed = ui_idle
    rw [hm]; rfl

theorem dispatch_long_monitor (s : State) (hm : s.ui_state = ui_monitor) :
    (dispatch btn_long_pressed s).ui_state = ui_setting ∧
    (dispatch btn_long_pressed s).t_level_set = s.t_level_set := by
  have ht := handle_btn_evt_table { s with btn_evt := btn_long_pressed }
  refine ⟨?_, ?_⟩
  · unfold dispatch
    rw [ht]
    show specTransition s.ui_state btn_long_pressed = ui_setting
    rw [hm]; rfl
  · unfold dispatch
    exact other_dispatch _ (by
      show ¬ (s.ui_state = ui_setting ∧ btn_long_pressed = btn_released)
      rw [hm]; simp)

/-- C17: the end-to-end scenario of the specification.  With an invalid persisted byte the
boot state has threshold 2 and mode idle; a released event gives monitoring; with measured
temperature 5 `t_updated` gives level 1 and `led_process` lights exactly the first 2
segments; a long-pressed event gives setting; three released events take the threshold to
3, 4 and 0; a final long-pressed event stores 0 in the persisted byte and gives idle. -/
theorem end_to_end (b : Nat) (rest : List Nat) (hb : 5 ≤ b) :
    (boot (b :: rest)).t_level_set = 2 ∧
    (boot (b :: rest)).ui_state = ui_idle ∧
    (dispatch btn_released (boot (b :: rest))).ui_state = ui_monitor ∧
    (t_updated { dispatch btn_released (boot (b :: rest)) with t_measured := 5 }).t_level_current
      = 1 ∧
    segments (led_process
      (t_updated { dispatch btn_released (boot (b :: rest)) with t_measured := 5 })) =
      [true, true, false, false, false] ∧
    (dispatch btn_long_pressed (led_process
      (t_updated { dispatch btn_released (boot (b :: rest)) with t_measured := 5 }))).ui_state
      = ui_setting ∧
    (dispatch btn_released (dispatch btn_long_pressed (led_process
      (t_updated { dispatch btn_released (boot (b :: rest)) with t_measured := 5 })))).t_level_set
      = 3 ∧
    (dispatch btn_released (dispatch btn_released (dispatch btn_long_pressed (led_process
      (t_updated { dispatch btn_released (boot (b :: rest)) with t_measured := 5 }))))).t_level_set
      = 4 ∧
    (dispatch btn_released (dispatch btn_released (dispatch btn_released
      (dispatch btn_long_pressed (led_process
      (t_updated { dispatch btn_released (boot (b :: rest)) with t_measured := 5 })))))).t_level_set
      = 0 ∧
    cfg_level (dispatch btn_long_pressed (dispatch btn_released (dispatch btn_released
      (dispatch btn_released (dispatch btn_long_pressed (led_process
      (t_updated { dispatch btn_released (boot (b :: rest)) with t_measured := 5 }))))))) = 0 ∧
    (dispatch btn_long_pressed (dispatch btn_released (dispatch btn_released
      (dispatch btn_released (dispatch btn_long_pressed (led_process
      (t_updated { dispatch btn_released (boot (b :: rest)) with t_measured := 5 }))))))).ui_state
      = ui_idle := by
  rw [boot_invalid b rest hb]
  have m2 : (t_updated { dispatch btn_released
      { reset_state (b :: rest) with
        P1OUT := BTN ||| P1T, P2OUT := P2T,
        ADC10CTL0 := SREF_1 + ADC10SHT_3 + REFON + ADC10ON + ADC10IE } with
      t_measured := 5 }).ui_state = ui_monitor := rfl
  have l2 : (t_updated { dispatch btn_released
      { reset_state (b :: rest) with
        P1OUT := BTN ||| P1T, P2OUT := P2T,
        ADC10CTL0 := SREF_1 + ADC10SHT_3 + REFON + ADC10ON + ADC10IE } with
      t_measured := 5 }).t_level_current = ((1 : Nat) : Int) := by
    rw [t_updated_level_eq]; rfl
  have t2 : (t_updated { dispatch btn_released
      { reset_state (b :: rest) with
        P1OUT := BTN ||| P1T, P2OUT := P2T,
        ADC10CTL0 := SREF_1 + ADC10SHT_3 + REFON + ADC10ON + ADC10IE } with
      t_measured := 5 }).t_level_set = 2 := by
    rw [(t_level_set_frame 0 _).2.2.2]; rfl
  generalize t_updated { dispatch btn_released
      { reset_state (b :: rest) with
        P1OUT := BTN ||| P1T, P2OUT := P2T,
        ADC10CTL0 := SREF_1 + ADC10SHT_3 + REFON + ADC10ON + ADC10IE } with
      t_measured := 5 } = s2 at m2 l2 t2 ⊢
  have m3 : (led_process s2).ui_state = ui_monitor := by
    rw [(led_process_frame s2).2.2.2.2.2.1, m2]
  have t3 : (led_process s2).t_level_set = 2 := by
    rw [(led_process_frame s2).2.2.2.2.2.2.2.1, t2]
  obtain ⟨m4, t4⟩ := dispatch_long_monitor _ m3
  rw [t3] at t4
  obtain ⟨t5, m5⟩ := dispatch_released_setting _ m4
  rw [t4] at t5
  obtain ⟨t6, m6⟩ := dispatch_released_setting _ m5
  rw [t5] at t6
  obtain ⟨t7, m7⟩ := dispatch_released_setting _ m6
  rw [t6] at t7
  obtain ⟨c8, m8⟩ := dispatch_long_setting _ m7
  rw [t7] at c8
  exact ⟨rfl, rfl, rfl, l2, monitor_bar s2 m2 1 l2 (by norm_num), m4, t5, t6, t7, c8, m8⟩

theorem end_to_end_witness :
    (boot (flash_erase [])).t_level_set = 2 ∧
    segments (led_process (t_updated
      { dispatch btn_released (boot (flash_erase [])) with t_measured := 5 })) =
      [true, true, false, false, false] :=
  have h := end_to_end 0xFF (List.replicate 63 0xFF) (by decide)
  ⟨h.1, h.2.2.2.2.1⟩

/-! ### Bounces -/

/-- One tick during which the button stays logically pressed: the press time stamp is
kept and the event is kept, except that a pending press may be classified as long. -/
theorem down_tick (p : Nat) (s : State) (h0 : s.btn_hist ≠ 0)
    (hn : histNext s.btn_hist p ≠ 0) :
    (watchdog_timer p s).btn_hist ≠ 0 ∧
    (watchdog_timer p s).btn_pressed_ts = s.btn_pressed_ts ∧
    ((watchdog_timer p s).btn_evt = s.btn_evt ∨
      (s.btn_evt = btn_none ∧ (watchdog_timer p s).btn_evt = btn_long_pressed)) := by
  obtain ⟨_, hh, hts, hev, _⟩ := tick_btn p s
  rw [if_pos hn, if_neg h0] at hts hev
  refine ⟨by rw [hh]; exact hn, hts, ?_⟩
  rw [hev]
  split_ifs with hc
  · exact Or.inr ⟨hc.1, rfl⟩
  · exact Or.inl rfl

theorem down_run (xs : List Nat) (s : State) (h0 : s.btn_hist ≠ 0)
    (hd : StaysDown s.btn_hist xs) :
    ∀ t ∈ trace s xs, t.btn_hist ≠ 0 ∧ t.btn_pressed_ts = s.btn_pressed_ts ∧
      (t.btn_evt = s.btn_evt ∨ (s.btn_evt = btn_none ∧ t.btn_evt = btn_long_pressed)) := by
  induction xs generalizing s with
  | nil => intro t ht; simp [trace] at ht
  | cons x xs ih =>
    obtain ⟨a, b, c⟩ := down_tick x s h0 hd.1
    have hd2 : StaysDown (watchdog_timer x s).btn_hist xs := by
      rw [(tick_btn x s).2.1]; exact hd.2
    intro t ht
    simp only [trace, List.mem_cons] at ht
    rcases ht with rfl | ht
    · exact ⟨a, b, c⟩
    · obtain ⟨a2, b2, c2⟩ := ih (watchdog_timer x s) a hd2 t ht
      refine ⟨a2, by rw [b2, b], ?_⟩
      rcases c with c | ⟨c, c1⟩
      · rw [c] at c2; exact c2
      · rcases c2 with c2 | ⟨c2, _⟩
        · exact Or.inr ⟨c, by rw [c2, c1]⟩
        · rw [c1] at c2; exact absurd c2 (by decide)

theorem staysDown_of_trace (xs : List Nat) (s : State)
    (h : ∀ t ∈ trace s xs, t.btn_hist ≠ 0) : StaysDown s.btn_hist xs := by
  induction xs generalizing s with
  | nil => trivial
  | cons x xs ih =>
    have h1 : (watchdog_timer x s).btn_hist ≠ 0 := h _ (by simp [trace])
    have h2 := ih (watchdog_timer x s) (fun t ht => h t (by simp [trace, ht]))
    rw [(tick_btn x s).2.1] at h1 h2
    exact ⟨h1, h2⟩

theorem idle_tick (p : Nat) (s : State) (h0 : s.btn_hist = 0)
    (hn : histNext s.btn_hist p = 0) :
    (watchdog_timer p s).btn_epoch = s.btn_epoch := by
  obtain ⟨_, _, _, _, hep⟩ := tick_btn p s
  have hnn : ¬ histNext s.btn_hist p ≠ 0 := fun h => h hn
  have h1 : ¬ (s.btn_hist ≠ 0 ∧ s.btn_evt = btn_none) := fun h => h.1 h0
  rw [if_neg hnn, if_neg h1] at hep
  exact hep

/-- Between two consecutive states of zero history the epoch changes at most once. -/
theorem one_bump (u : State) (xs : List Nat) (hz : u.btn_hist = 0)
    (hf : (run u xs).btn_hist = 0) (hm : ∀ t ∈ (trace u xs).dropLast, t.btn_hist ≠ 0) :
    epochBumps u xs ≤ 1 := by
  rcases List.eq_nil_or_concat xs with h | ⟨xs1, r, h⟩
  · subst h; exact Nat.zero_le 1
  · rw [List.concat_eq_append] at h
    subst h
    rw [trace_append] at hm
    have hm1 : ∀ t ∈ trace u xs1, t.btn_hist ≠ 0 := by
      intro t ht
      apply hm
      have e : trace (run u xs1) [r] = [watchdog_timer r (run u xs1)] := rfl
      rw [e, List.dropLast_concat]
      exact ht
    have hd := staysDown_of_trace xs1 u hm1
    rw [run_hist] at hf
    cases xs1 with
    | nil =>
      have hn : histNext u.btn_hist r = 0 := hf
      have he := idle_tick r u hz hn
      unfold epochBumps
      simp [trace, bumps, he]
    | cons x ys =>
      have hx : x &&& BTN = 0 := by
        by_contra hc
        have h1 := histNext_released u.btn_hist x hc
        rw [hz] at h1
        have h2 := hd.1
        rw [hz, h1] at h2
        exact h2 rfl
      have hfin : histNext (histAfter (histNext u.btn_hist x) ys) r = 0 := by
        rw [List.cons_append, histAfter, histAfter_append] at hf
        exact hf
      by_cases hl : ys.length ≤ 200
      · exact Nat.le_of_eq (short_core u x r ys hz hx hd.2 hl hfin).2.2.2.2.1
      · exact Nat.le_of_eq (long_core u x r ys hz hx hd.2 (by omega) hfin).2.2.2.2.2.2

/-- C19: a bounce does not split an interaction.  In a state whose last pressed sample
was `j` ticks ago (history `m * 2 ^ j mod 256` with `m` odd), further not-pressed samples
that bring the run of consecutive not-pressed samples to at most 7, followed by a pressed
sample, keep the history non-zero and the press time stamp unchanged, produce no released
event and never set the event back to none; the history becomes zero exactly on the 8th
consecutive not-pressed sample; and between two consecutive states of zero history the
epoch is incremented at most once. -/
theorem bounce_keeps_interaction (s : State) (m j : Nat) (bounce rel : List Nat) (x : Nat)
    (hodd : m % 2 = 1) (hs : s.btn_hist = (m * 2 ^ j) % 256)
    (hb : ∀ y ∈ bounce, y &&& BTN ≠ 0) (hbl : j + bounce.length ≤ 7) (hx : x &&& BTN = 0)
    (hr : ∀ y ∈ rel, y &&& BTN ≠ 0) :
    (∀ t ∈ trace s (bounce ++ [x]),
      t.btn_hist ≠ 0 ∧ t.btn_pressed_ts = s.btn_pressed_ts ∧
      (t.btn_evt = s.btn_evt ∨ (s.btn_evt = btn_none ∧ t.btn_evt = btn_long_pressed)) ∧
      (s.btn_evt ≠ btn_released → t.btn_evt ≠ btn_released) ∧
      (s.btn_evt ≠ btn_none → t.btn_evt ≠ btn_none)) ∧
    (j + rel.length ≤ 7 → (run s rel).btn_hist ≠ 0) ∧
    (j + rel.length = 8 → (run s rel).btn_hist = 0) ∧
    (∀ (u : State) (xs : List Nat), u.btn_hist = 0 → (run u xs).btn_hist = 0 →
      (∀ t ∈ (trace u xs).dropLast, t.btn_hist ≠ 0) → epochBumps u xs ≤ 1) := by
  have h0 : s.btn_hist ≠ 0 := by
    rw [hs]; exact odd_shift_ne_zero m j hodd (by omega)
  refine ⟨?_, ?_, ?_, one_bump⟩
  · have hd : StaysDown s.btn_hist (bounce ++ [x]) := by
      rw [staysDown_append]
      refine ⟨?_, ?_, trivial⟩
      · rw [hs]; exact staysDown_released m j bounce hodd hb hbl
      · have := histNext_pressed (histAfter s.btn_hist bounce) x hx
        omega
    intro t ht
    obtain ⟨a, b, c⟩ := down_run _ s h0 hd t ht
    refine ⟨a, b, c, ?_, ?_⟩
    · intro hne
      rcases c with c | ⟨_, c⟩
      · rw [c]; exact hne
      · rw [c]; decide
    · intro hne
      rcases c with c | ⟨c, _⟩
      · rw [c]; exact hne
      · exact absurd c hne
  · intro hl
    rw [run_hist, hs, histAfter_released m j rel hr]
    exact odd_shift_ne_zero _ _ hodd (by omega)
  · intro hl
    rw [run_hist, hs, histAfter_released m j rel hr, hl]
    norm_num

theorem bounce_keeps_interaction_witness :
    (run { boot (flash_erase []) with btn_hist := 1 } (List.replicate 7 BTN)).btn_hist ≠ 0 ∧
    (run { boot (flash_erase []) with btn_hist := 1 } (List.replicate 8 BTN)).btn_hist = 0 ∧
    (run { boot (flash_erase []) with btn_hist := 128 } [BTN]).btn_hist = 0 :=
  ⟨(bounce_keeps_interaction { boot (flash_erase []) with btn_hist := 1 } 1 0
      (List.replicate 7 BTN) (List.replicate 7 BTN) 0 (by decide) (by decide)
      (replicate_released 7) (by decide) (by decide) (replicate_released 7)).2.1 (by decide),
   (bounce_keeps_interaction { boot (flash_erase []) with btn_hist := 1 } 1 0
      (List.replicate 7 BTN) (List.replicate 8 BTN) 0 (by decide) (by decide)
      (replicate_released 7) (by decide) (by decide) (replicate_released 8)).2.2.1 (by decide),
   (bounce_keeps_interaction { boot (flash_erase []) with btn_hist := 128 } 1 7
      [] [BTN] 0 (by decide) (by decide)
      (fun _ h => absurd h (List.not_mem_nil _)) (by decide) (by decide)
      (replicate_released 1)).2.2.1 (by decide)⟩

/-! ### The accumulator does not wrap -/

theorem currentBatch_snoc_full (xs : List Nat) (x : Nat) (h : (xs.length + 1) % 64 = 0) :
    currentBatch (xs ++ [x]) = [] := by
  unfold currentBatch T_SAMPLES
  apply List.drop_eq_nil_of_le
  rw [List.length_append, List.length_singleton]
  omega

theorem currentBatch_snoc_part (xs : List Nat) (x : Nat) (h : (xs.length + 1) % 64 ≠ 0) :
    currentBatch (xs ++ [x]) = currentBatch xs ++ [x] := by
  unfold currentBatch T_SAMPLES
  have e : 64 * ((xs ++ [x]).length / 64) = 64 * (xs.length / 64) := by
    rw [List.length_append, List.length_singleton]
    omega
  rw [e]
  exact List.drop_append_of_le_length (by omega)

/-- The accumulator is the exact sum of the batch in progress. -/
theorem adcRun_exact (cal30 : Nat) (s : State) (xs : List Nat)
    (hs : s.t_sum = 0) (hn : s.t_cnt = 0) (hx : ∀ y ∈ xs, y ≤ 1023) :
    (adcRun cal30 s xs).t_cnt = xs.length % 64 ∧
    (adcRun cal30 s xs).t_sum = (currentBatch xs).sum ∧
    (adcRun cal30 s xs).t_sum ≤ 1023 * (adcRun cal30 s xs).t_cnt := by
  induction xs using List.reverseRecOn with
  | nil =>
    refine ⟨hn, ?_, ?_⟩
    · show s.t_sum = _
      rw [hs]; rfl
    · show s.t_sum ≤ _
      rw [hs]; exact Nat.zero_le _
  | append_singleton xs x ih =>
    obtain ⟨i1, i2, i3⟩ := ih (fun y hy => hx y (List.mem_append_left _ hy))
    have hx1 : x ≤ 1023 := hx x (List.mem_append_right _ (List.mem_singleton_self x))
    have hlt : (adcRun cal30 s xs).t_cnt < 64 := by rw [i1]; omega
    obtain ⟨q1, q2, _, _⟩ := adc_step cal30 x (adcRun cal30 s xs) hlt
    have hrun : adcRun cal30 s (xs ++ [x]) = ADC10_ISR cal30 x (adcRun cal30 s xs) := by
      rw [adcRun_append]; rfl
    rw [hrun, List.length_append, List.length_singleton]
    by_cases hc : (adcRun cal30 s xs).t_cnt = 63
    · have hfull : (xs.length + 1) % 64 = 0 := by omega
      rw [if_pos hc] at q2
      rw [q1, q2, currentBatch_snoc_full xs x hfull, hc]
      exact ⟨by omega, rfl, Nat.zero_le _⟩
    · have hpart : (xs.length + 1) % 64 ≠ 0 := by omega
      rw [if_neg hc] at q2
      have hnw : ((adcRun cal30 s xs).t_sum + x) % 65536 = (adcRun cal30 s xs).t_sum + x := by
        omega
      rw [q1, q2, currentBatch_snoc_part xs x hpart, hnw, List.sum_append, List.sum_singleton, i2]
      refine ⟨by omega, rfl, ?_⟩
      rw [← i2]
      have e : ((adcRun cal30 s xs).t_cnt + 1) % 64 = (adcRun cal30 s xs).t_cnt + 1 := by omega
      rw [e]
      omega

/-- C20: when every raw result is at most 1023, in every state reached from accumulator
0 and sample count 0 by conversion interrupts the sample count is below 64, the
accumulator is the exact sum of the samples of the batch in progress and at most 1023
times the sample count, adding the next result stays below 65536 (at most 65472), and the
average handed to the conversion when a batch completes is the exact average of its 64
samples and at most 1023. -/
theorem accumulator_no_wrap (cal30 : Nat) (s : State) (xs : List Nat) (x : Nat)
    (hs : s.t_sum = 0) (hn : s.t_cnt = 0) (hx : ∀ y ∈ xs, y ≤ 1023) (hx1 : x ≤ 1023) :
    (adcRun cal30 s xs).t_cnt < 64 ∧
    (adcRun cal30 s xs).t_sum ≤ 1023 * (adcRun cal30 s xs).t_cnt ∧
    1023 * (adcRun cal30 s xs).t_cnt ≤ 65472 ∧
    (adcRun cal30 s xs).t_sum = (currentBatch xs).sum ∧
    (adcRun cal30 s xs).t_sum + x ≤ 65472 ∧
    ((adcRun cal30 s xs).t_sum + x) % 65536 = (currentBatch xs).sum + x ∧
    ((xs.length + 1) % 64 = 0 →
      (adcRun cal30 s (xs ++ [x])).t_measured =
        wrapInt8 (adc2Temp cal30 ((((currentBatch xs).sum + x) / 64 : Nat) : Int)) ∧
      ((currentBatch xs).sum + x) / 64 ≤ 1023) := by
  obtain ⟨i1, i2, i3⟩ := adcRun_exact cal30 s xs hs hn hx
  have hlt : (adcRun cal30 s xs).t_cnt < 64 := by rw [i1]; omega
  have hnw : ((adcRun cal30 s xs).t_sum + x) % 65536 = (adcRun cal30 s xs).t_sum + x := by
    omega
  refine ⟨hlt, i3, by omega, i2, by omega, by rw [hnw, i2], ?_⟩
  intro hfull
  obtain ⟨_, _, _, q4⟩ := adc_step cal30 x (adcRun cal30 s xs) hlt
  have hc : (adcRun cal30 s xs).t_cnt = 63 := by rw [i1]; omega
  rw [if_pos hc, hnw, i2] at q4
  have hrun : adcRun cal30 s (xs ++ [x]) = ADC10_ISR cal30 x (adcRun cal30 s xs) := by
    rw [adcRun_append]; rfl
  rw [hrun]
  refine ⟨q4, ?_⟩
  rw [← i2]
  omega

theorem replicate_le (n v : Nat) (hv : v ≤ 1023) : ∀ y ∈ List.replicate n v, y ≤ 1023 := by
  intro y hy
  rw [List.eq_of_mem_replicate hy]
  exact hv

theorem accumulator_no_wrap_witness :
    (adcRun 673 (boot (flash_erase [])) (List.replicate 63 1023)).t_cnt < 64 ∧
    (adcRun 673 (boot (flash_erase [])) (List.replicate 63 1023)).t_sum + 1023 ≤ 65472 :=
  have h := accumulator_no_wrap 673 (boot (flash_erase [])) (List.replicate 63 1023) 1023 rfl rfl
    (replicate_le 63 1023 (by decide)) (by decide)
  ⟨h.1, h.2.2.2.2.1⟩

end ThermoStat
